import Mathlib

/-!
# Adafruit IS31FL3731 driver: embedding and verified properties

A shallow embedding of `Adafruit_IS31FL3731.cpp`.

* Machine integers are `Nat` / `Int` with explicit reduction: a `uint8_t`
  parameter is reduced `% 256` on entry, an assignment to an `int16_t` goes
  through `wrap16`.
* The two-wire transport (`Wire`) and Arduino's `delay` are an interface
  `TwoWire σ` over an arbitrary transport state `σ`; every driver method
  threads the handle and the transport state explicitly.
* Three transports are given: `recorder`, which logs every call (the trace of
  an operation), `chipWire`, a device-memory model of the chip, and `loopWire`,
  the loop-back device of the register round trip.
* The constants of `Adafruit_IS31FL3731.h` are not part of the sources; they
  are the parameter `Regs`.
-/

namespace IS31FL3731

/-! ## Machine integers -/

/-- Value of an `int` expression once stored in an `int16_t`. -/
def wrap16 (z : Int) : Int := (z + 32768) % 65536 - 32768

/-- Value of an `int` expression once passed as a `uint8_t`. -/
def toU8 (z : Int) : Nat := (z % 256).toNat

/-! ## Transport interface -/

/-- The calls the driver makes on the `Wire` object, and Arduino's `delay`. -/
structure TwoWire (σ : Type) where
  begin : σ → σ
  setClock : Nat → σ → σ
  beginTransmission : Nat → σ → σ
  write : Nat → σ → σ
  endTransmission : σ → σ × Nat
  requestFrom : Nat → Nat → σ → σ
  read : σ → σ × Nat
  delay : Nat → σ → σ

/-- One call on the transport, as logged by `recorder`. -/
inductive Call where
  | begin : Call
  | setClock : Nat → Call
  | beginTransmission : Nat → Call
  | write : Nat → Call
  | endTransmission : Call
  | requestFrom : Nat → Nat → Call
  | read : Call
  | delay : Nat → Call
  deriving DecidableEq, Repr

/-- The logging transport: its state is the list of calls made so far; the
status of `endTransmission` and the byte of `read` are arbitrary functions of
that history. -/
def recorder (status rx : List Call → Nat) : TwoWire (List Call) where
  begin t := t ++ [Call.begin]
  setClock hz t := t ++ [Call.setClock hz]
  beginTransmission a t := t ++ [Call.beginTransmission a]
  write b t := t ++ [Call.write b]
  endTransmission t := (t ++ [Call.endTransmission], status t)
  requestFrom a n t := t ++ [Call.requestFrom a n]
  read t := (t ++ [Call.read], rx t)
  delay ms t := t ++ [Call.delay ms]

/-! ## Header constants and handle -/

/-- The register map of `Adafruit_IS31FL3731.h` (not among the sources). -/
structure Regs where
  ISSI_COMMANDREGISTER : Nat
  ISSI_BANK_FUNCTIONREG : Nat
  ISSI_REG_SHUTDOWN : Nat
  ISSI_REG_CONFIG : Nat
  ISSI_REG_CONFIG_PICTUREMODE : Nat
  ISSI_REG_PICTUREFRAME : Nat
  ISSI_REG_AUDIOSYNC : Nat

/-- The member variables the methods use: `_i2caddr`, `_frame`, and the
`rotation` of the graphics base class that `getRotation()` returns. -/
structure Handle where
  _i2caddr : Nat
  _frame : Nat
  rotation : Nat
  deriving DecidableEq, Repr

/-! ## Protocol engine -/

/-- Method `Adafruit_IS31FL3731::selectBank`. -/
def selectBank {σ : Type} (W : TwoWire σ) (K : Regs) (h : Handle) (bank : Nat) (s : σ) :
    Handle × σ :=
  let bank := bank % 256
  let s := W.beginTransmission h._i2caddr s
  let s := W.write (K.ISSI_COMMANDREGISTER % 256) s
  let s := W.write bank s
  let s := (W.endTransmission s).1
  (h, s)

/-- Method `Adafruit_IS31FL3731::writeRegister8`. -/
def writeRegister8 {σ : Type} (W : TwoWire σ) (K : Regs) (h : Handle) (bank reg data : Nat)
    (s : σ) : Handle × σ :=
  let bank := bank % 256
  let reg := reg % 256
  let data := data % 256
  let (h, s) := selectBank W K h bank s
  let s := W.beginTransmission h._i2caddr s
  let s := W.write reg s
  let s := W.write data s
  let s := (W.endTransmission s).1
  (h, s)

/-- Method `Adafruit_IS31FL3731::readRegister8`. -/
def readRegister8 {σ : Type} (W : TwoWire σ) (K : Regs) (h : Handle) (bank reg : Nat)
    (s : σ) : Nat × Handle × σ :=
  let bank := bank % 256
  let reg := reg % 256
  let (h, s) := selectBank W K h bank s
  let s := W.beginTransmission h._i2caddr s
  let s := W.write reg s
  let s := (W.endTransmission s).1
  let s := W.requestFrom h._i2caddr 1 s
  let (s, x) := W.read s
  (x % 256, h, s)

/-- Method `Adafruit_IS31FL3731::setLEDPWM`. -/
def setLEDPWM {σ : Type} (W : TwoWire σ) (K : Regs) (h : Handle) (lednum pwm bank : Nat)
    (s : σ) : Handle × σ :=
  let lednum := lednum % 256
  let pwm := pwm % 256
  let bank := bank % 256
  if lednum ≥ 144 then (h, s)
  else writeRegister8 W K h bank (0x24 + lednum) pwm s

/-- Method `Adafruit_IS31FL3731::setFrame`. -/
def setFrame {σ : Type} (h : Handle) (frame : Nat) (s : σ) : Handle × σ :=
  let frame := frame % 256
  ({ h with _frame := frame }, s)

/-- Method `Adafruit_IS31FL3731::displayFrame`. -/
def displayFrame {σ : Type} (W : TwoWire σ) (K : Regs) (h : Handle) (frame : Nat) (s : σ) :
    Handle × σ :=
  let frame := frame % 256
  let frame := if frame > 7 then 0 else frame
  writeRegister8 W K h K.ISSI_BANK_FUNCTIONREG K.ISSI_REG_PICTUREFRAME frame s

/-- Method `Adafruit_IS31FL3731::audioSync`. -/
def audioSync {σ : Type} (W : TwoWire σ) (K : Regs) (h : Handle) (sync : Bool) (s : σ) :
    Handle × σ :=
  if sync then writeRegister8 W K h K.ISSI_BANK_FUNCTIONREG K.ISSI_REG_AUDIOSYNC 0x1 s
  else writeRegister8 W K h K.ISSI_BANK_FUNCTIONREG K.ISSI_REG_AUDIOSYNC 0x0 s

/-- One pass of the outer loop of `clear`: a transaction of the start offset
`0x24 + i*24` followed by 24 zero bytes. -/
def clearChunk {σ : Type} (W : TwoWire σ) (h : Handle) (s : σ) (i : Nat) : σ :=
  let s := W.beginTransmission h._i2caddr s
  let s := W.write ((0x24 + i * 24) % 256) s
  let s := (List.range 24).foldl (fun s _ => W.write 0 s) s
  (W.endTransmission s).1

/-- Method `Adafruit_IS31FL3731::clear`. -/
def clear {σ : Type} (W : TwoWire σ) (K : Regs) (h : Handle) (s : σ) : Handle × σ :=
  let (h, s) := selectBank W K h h._frame s
  let s := (List.range 6).foldl (clearChunk W h) s
  (h, s)

/-- The LED-enable loops of `begin`: `0xff` to registers `0..0x11` of banks `0..7`. -/
def enableAll {σ : Type} (W : TwoWire σ) (K : Regs) (h : Handle) (s : σ) : Handle × σ :=
  (List.range 8).foldl
    (fun hs f => (List.range 0x12).foldl (fun hs i => writeRegister8 W K hs.1 f i 0xff hs.2) hs)
    (h, s)

/-- Method `Adafruit_IS31FL3731::begin`. Each call returns the pair of handle
and transport state; `p.1` and `p.2` are the handle and the transport state
the next statement runs on. -/
def begin {σ : Type} (W : TwoWire σ) (K : Regs) (h : Handle) (addr : Nat) (s : σ) :
    Bool × Handle × σ :=
  let addr := addr % 256
  let s := W.begin s
  let s := W.setClock 400000 s
  let h := { h with _i2caddr := addr }
  let h := { h with _frame := 0 }
  let s := W.beginTransmission h._i2caddr s
  let r := W.endTransmission s
  if r.2 ≠ 0 then (false, h, r.1)
  else
    let p := writeRegister8 W K h K.ISSI_BANK_FUNCTIONREG K.ISSI_REG_SHUTDOWN 0x00 r.1
    let s := W.delay 10 p.2
    let p := writeRegister8 W K p.1 K.ISSI_BANK_FUNCTIONREG K.ISSI_REG_SHUTDOWN 0x01 s
    let p := writeRegister8 W K p.1 K.ISSI_BANK_FUNCTIONREG K.ISSI_REG_CONFIG
      K.ISSI_REG_CONFIG_PICTUREMODE p.2
    let p := displayFrame W K p.1 p.1._frame p.2
    let p := clear W K p.1 p.2
    let p := enableAll W K p.1 p.2
    let p := audioSync W K p.1 false p.2
    (true, p.1, p.2)

/-! ## Pixel mapper -/

/-- The rotation `switch` of `Adafruit_IS31FL3731::drawPixel`. -/
def rotate (r : Nat) (x y : Int) : Int × Int :=
  match r with
  | 1 => (wrap16 (16 - y - 1), x)
  | 2 => (wrap16 (16 - x - 1), wrap16 (9 - y - 1))
  | 3 => (y, wrap16 (9 - x - 1))
  | _ => (x, y)

/-- Method `Adafruit_IS31FL3731::drawPixel` (generic 16x9 layout). -/
def drawPixel {σ : Type} (W : TwoWire σ) (K : Regs) (h : Handle) (x y : Int) (color : Nat)
    (s : σ) : Handle × σ :=
  let color := color % 65536
  let (x, y) := rotate h.rotation x y
  if x < 0 ∨ x ≥ 16 then (h, s)
  else if y < 0 ∨ y ≥ 9 then (h, s)
  else
    let color := if color > 255 then 255 else color
    setLEDPWM W K h (toU8 (x + y * 16)) color h._frame s

namespace Wing

/-- The rotation `switch` of `Adafruit_IS31FL3731_Wing::drawPixel`. -/
def rotate (r : Nat) (x y : Int) : Int × Int :=
  match r with
  | 1 => (wrap16 (15 - y - 1), x)
  | 2 => (wrap16 (15 - x - 1), wrap16 (7 - y - 1))
  | 3 => (y, wrap16 (9 - x - 1))
  | _ => (x, y)

/-- The fold of `Adafruit_IS31FL3731_Wing::drawPixel` onto the two halves,
with the final swap: the pair `(x, y)` that enters `x + y*16`. -/
def fold (x y : Int) : Int × Int :=
  let (x, y) := if x > 7 then (wrap16 (15 - x), wrap16 (y + 8)) else (x, wrap16 (7 - y))
  (y, x)

/-- Method `Adafruit_IS31FL3731_Wing::drawPixel` (15x7 wing layout). -/
def drawPixel {σ : Type} (W : TwoWire σ) (K : Regs) (h : Handle) (x y : Int) (color : Nat)
    (s : σ) : Handle × σ :=
  let color := color % 65536
  let (x, y) := rotate h.rotation x y
  if x < 0 ∨ x ≥ 16 ∨ y < 0 ∨ y ≥ 7 then (h, s)
  else
    let (x, y) := fold x y
    let color := if color > 255 then 255 else color
    setLEDPWM W K h (toU8 (x + y * 16)) color h._frame s

end Wing

/-! ## Device-memory model -/

/-- State of the chip behind the bus in the device-memory model: the register
memory (bank, offset), the selected bank, the register pointer, the bytes
queued since `beginTransmission`, and the bytes fetched by `requestFrom`. -/
structure Chip where
  mem : Nat → Nat → Nat
  bank : Nat
  ptr : Nat
  buf : List Nat
  rxq : List Nat

/-- Store successive data bytes at successive register offsets of `bank`,
starting at `reg`. -/
def storeBytes (mem : Nat → Nat → Nat) (bank reg : Nat) : List Nat → Nat → Nat → Nat
  | [] => mem
  | d :: ds => storeBytes (fun b r => if b = bank ∧ r = reg then d else mem b r) bank (reg + 1) ds

/-- The chip's reaction to a finished write transaction: a first byte equal to
the command register selects the bank given by the next byte; any other first
byte is a register offset, and the bytes after it are stored from there on in
the selected bank. -/
def Chip.commit (cmd : Nat) (c : Chip) : Chip :=
  match c.buf with
  | [] => c
  | reg :: data =>
    if reg = cmd then
      match data with
      | [] => { c with buf := [] }
      | b :: _ => { c with bank := b, buf := [] }
    else
      { c with mem := storeBytes c.mem c.bank reg data, ptr := reg + data.length, buf := [] }

/-- The device-memory transport: writes are queued and take effect at
`endTransmission` (always acknowledged); `requestFrom` fetches bytes from the
register pointer on in the selected bank; `read` hands them out, `0xFF` when
nothing is left. -/
def chipWire (cmd : Nat) : TwoWire Chip where
  begin c := c
  setClock _ c := c
  beginTransmission _ c := { c with buf := [] }
  write b c := { c with buf := c.buf ++ [b] }
  endTransmission c := (c.commit cmd, 0)
  requestFrom _ n c :=
    { c with rxq := (List.range n).map (fun k => c.mem c.bank (c.ptr + k)), ptr := c.ptr + n }
  read c :=
    match c.rxq with
    | [] => (c, 0xFF)
    | b :: rest => ({ c with rxq := rest }, b)
  delay _ c := c

/-- The loop-back device's reaction to a finished write transaction. Every
transaction stores its data bytes in the current bank from its first byte, the
register offset, on (a one-byte transaction stores nothing and only sets the
register pointer); a transaction on the command register then makes its first
data byte the current bank. -/
def Chip.loopCommit (cmd : Nat) (c : Chip) : Chip :=
  match c.buf with
  | [] => c
  | reg :: data =>
    if reg = cmd then
      match data with
      | [] =>
        { c with mem := storeBytes c.mem c.bank reg data, ptr := reg + data.length, buf := [] }
      | b :: _ =>
        { c with mem := storeBytes c.mem c.bank reg data, ptr := reg + data.length, buf := [],
                 bank := b }
    else
      { c with mem := storeBytes c.mem c.bank reg data, ptr := reg + data.length, buf := [] }

/-- The loop-back transport of the register round trip: as `chipWire`, with
`endTransmission` looping every written byte back into the register memory,
so that a bank select through the command register sets the current bank, a
two-byte write stores the value at the register offset of the current bank,
and a one-byte write followed by a one-byte read returns the stored value,
at every register offset. -/
def loopWire (cmd : Nat) : TwoWire Chip where
  begin c := c
  setClock _ c := c
  beginTransmission _ c := { c with buf := [] }
  write b c := { c with buf := c.buf ++ [b] }
  endTransmission c := (c.loopCommit cmd, 0)
  requestFrom _ n c :=
    { c with rxq := (List.range n).map (fun k => c.mem c.bank (c.ptr + k)), ptr := c.ptr + n }
  read c :=
    match c.rxq with
    | [] => (c, 0xFF)
    | b :: rest => ({ c with rxq := rest }, b)
  delay _ c := c

/-- Register values used to evaluate the definitions: those of the chip's
datasheet (command register `0xFD`, function-register page `0x0B`, shutdown
`0x0A`, configuration `0x00` with picture mode `0x00`, picture frame `0x01`,
audio sync `0x06`). -/
def sampleRegs : Regs := ⟨0xFD, 0x0B, 0x0A, 0x00, 0x00, 0x01, 0x06⟩

/-- A logging transport that acknowledges every transaction and reads zeros. -/
def ackWire : TwoWire (List Call) := recorder (fun _ => 0) (fun _ => 0)

/-- A chip whose every register holds `0xAA`, bank 0 selected. -/
def dirtyChip : Chip := ⟨fun _ _ => 0xAA, 0, 0, [], []⟩

/-! ## Vocabulary of the properties -/

/-- Bus traffic of one bank select: command register, then the bank. -/
def bankSelect (a cmd bank : Nat) : List Call :=
  [Call.beginTransmission a, Call.write cmd, Call.write bank, Call.endTransmission]

/-- Bus traffic of one register write: the bank select, then the two-byte
transaction (register offset, value). -/
def regWrite (a cmd bank reg data : Nat) : List Call :=
  bankSelect a cmd bank ++
    [Call.beginTransmission a, Call.write reg, Call.write data, Call.endTransmission]

/-- Logical display area of the generic layout at rotation `r`: 16x9 when the
axes are not swapped, 9x16 when they are. -/
def inLogical (r : Nat) (x y : Int) : Prop :=
  if r = 1 ∨ r = 3 then 0 ≤ x ∧ x < 9 ∧ 0 ≤ y ∧ y < 16
  else 0 ≤ x ∧ x < 16 ∧ 0 ≤ y ∧ y < 9

instance (r : Nat) (x y : Int) : Decidable (inLogical r x y) := by
  unfold inLogical; infer_instance

/-- Physical domain of the generic layout: `[0,16) x [0,9)`. -/
def inPhysical (p : Int × Int) : Prop := 0 ≤ p.1 ∧ p.1 < 16 ∧ 0 ≤ p.2 ∧ p.2 < 9

instance (p : Int × Int) : Decidable (inPhysical p) := by
  unfold inPhysical; infer_instance

/-- The rotated coordinate of the generic layout as the property table gives
it: `r=0: (x,y)`, `r=1: (15-y, x)`, `r=2: (15-x, 8-y)`, `r=3: (y, 8-x)`. -/
def rotatedCoord (r : Nat) (x y : Int) : Int × Int :=
  if r = 1 then (15 - y, x)
  else if r = 2 then (15 - x, 8 - y)
  else if r = 3 then (y, 8 - x)
  else (x, y)

/-- Bus traffic of the batched clear of frame `f`: one bank select, then six
transactions, the `i`-th being the start offset `0x24 + 24*i` and 24 zero
bytes. -/
def clearTrace (a cmd f : Nat) : List Call :=
  bankSelect a cmd f ++
    (List.range 6).flatMap (fun i =>
      [Call.beginTransmission a, Call.write (0x24 + 24 * i)] ++ List.replicate 24 (Call.write 0)
        ++ [Call.endTransmission])

/-- Bus traffic of the LED-enable writes: `0xFF` to every register
`0x00..0x11` of every bank `0..7`, bank by bank. -/
def enableTrace (a cmd : Nat) : List Call :=
  (List.range 8).flatMap (fun f => (List.range 18).flatMap (fun i => regWrite a cmd f i 0xFF))

/-- The linear index of the wing's quadrant fold as the property gives it:
`(7-y) + 16*x` when `x <= 7`, `(y+8) + 16*(15-x)` when `x > 7`. -/
def wingIndex (x y : Int) : Int :=
  if x ≤ 7 then (7 - y) + 16 * x else (y + 8) + 16 * (15 - x)

/-- The calls `begin` makes up to and including the probe's
`beginTransmission`; the probe status is the transport's answer to the
`endTransmission` that follows. -/
def probeCalls (addr : Nat) : List Call :=
  [Call.begin, Call.setClock 400000, Call.beginTransmission addr]

/-- The calls of `begin` after an acknowledged probe: shutdown, the 10 ms
delay, exit shutdown, picture mode, display frame 0, the batched clear of
frame 0, the LED-enable writes, and audio sync off. -/
def configTrace (a : Nat) (K : Regs) : List Call :=
  regWrite a (K.ISSI_COMMANDREGISTER % 256) (K.ISSI_BANK_FUNCTIONREG % 256)
      (K.ISSI_REG_SHUTDOWN % 256) 0x00
    ++ [Call.delay 10]
    ++ regWrite a (K.ISSI_COMMANDREGISTER % 256) (K.ISSI_BANK_FUNCTIONREG % 256)
      (K.ISSI_REG_SHUTDOWN % 256) 0x01
    ++ regWrite a (K.ISSI_COMMANDREGISTER % 256) (K.ISSI_BANK_FUNCTIONREG % 256)
      (K.ISSI_REG_CONFIG % 256) (K.ISSI_REG_CONFIG_PICTUREMODE % 256)
    ++ regWrite a (K.ISSI_COMMANDREGISTER % 256) (K.ISSI_BANK_FUNCTIONREG % 256)
      (K.ISSI_REG_PICTUREFRAME % 256) 0
    ++ clearTrace a (K.ISSI_COMMANDREGISTER % 256) 0
    ++ enableTrace a (K.ISSI_COMMANDREGISTER % 256)
    ++ regWrite a (K.ISSI_COMMANDREGISTER % 256) (K.ISSI_BANK_FUNCTIONREG % 256)
      (K.ISSI_REG_AUDIOSYNC % 256) 0

/-- One register access found in a trace: the bank named by the latest bank
select before it (`none` when the trace has none yet), whether that bank
select is the transaction immediately before the access, and the bytes of the
access (register offset, then data). -/
structure Access where
  bank : Option Nat
  fresh : Bool
  bytes : List Nat
  deriving DecidableEq

/-- State of the scan of a trace for register accesses: the bytes of the open
transaction, the bank last selected, whether the last finished transaction was
a bank select, and the accesses found so far. -/
structure Scan where
  cur : Option (List Nat)
  bank : Option Nat
  fresh : Bool
  log : List Access

/-- One step of the scan. A finished transaction whose first byte is the
command register and that carries a bank byte is a bank select; any other
non-empty transaction is a register access. -/
def scanStep (cmd : Nat) (st : Scan) (c : Call) : Scan :=
  match c with
  | Call.beginTransmission _ => { st with cur := some [] }
  | Call.write b => { st with cur := st.cur.map (fun l => l ++ [b]) }
  | Call.endTransmission =>
    match st.cur with
    | none => st
    | some [] => { st with cur := none, fresh := false }
    | some (r :: d) =>
      if r = cmd ∧ d ≠ [] then { st with cur := none, bank := d.head?, fresh := true }
      else
        { st with cur := none, fresh := false, log := st.log ++ [⟨st.bank, st.fresh, r :: d⟩] }
  | _ => st

/-- Scan of a trace from a given state. -/
def scan (cmd : Nat) (st : Scan) (t : List Call) : Scan := t.foldl (scanStep cmd) st

/-- The register accesses of a trace, in order. -/
def accessLog (cmd : Nat) (t : List Call) : List Access :=
  (scan cmd ⟨none, none, false, []⟩ t).log

/-- The accesses of the batched clear of frame `f`: six bulk writes under the
one bank select of `f`, of which only the first follows it immediately. -/
def clearLog (f : Nat) : List Access :=
  (List.range 6).map (fun i => ⟨some f, decide (i = 0), (0x24 + 24 * i) :: List.replicate 24 0⟩)

/-- The accesses of the LED-enable writes: `(i, 0xFF)` for `i` in
`0x00..0x11`, in each bank `f` in `0..7`, each right after a select of `f`. -/
def enableLog : List Access :=
  (List.range 8).flatMap (fun f => (List.range 18).map (fun i => ⟨some f, true, [i, 0xFF]⟩))

/-- The accesses of `begin` after an acknowledged probe. -/
def configLog (K : Regs) : List Access :=
  [⟨some (K.ISSI_BANK_FUNCTIONREG % 256), true, [K.ISSI_REG_SHUTDOWN % 256, 0x00]⟩,
    ⟨some (K.ISSI_BANK_FUNCTIONREG % 256), true, [K.ISSI_REG_SHUTDOWN % 256, 0x01]⟩,
    ⟨some (K.ISSI_BANK_FUNCTIONREG % 256), true,
      [K.ISSI_REG_CONFIG % 256, K.ISSI_REG_CONFIG_PICTUREMODE % 256]⟩,
    ⟨some (K.ISSI_BANK_FUNCTIONREG % 256), true, [K.ISSI_REG_PICTUREFRAME % 256, 0]⟩]
    ++ clearLog 0 ++ enableLog
    ++ [⟨some (K.ISSI_BANK_FUNCTIONREG % 256), true, [K.ISSI_REG_AUDIOSYNC % 256, 0]⟩]

/-- The naive per-register clear that the batched `clear` stands for:
`setLEDPWM(k, 0, _frame)` for `k = 0..143`. -/
def naiveClear {σ : Type} (W : TwoWire σ) (K : Regs) (h : Handle) (s : σ) : Handle × σ :=
  (List.range 144).foldl (fun hs k => setLEDPWM W K hs.1 k 0 h._frame hs.2) (h, s)

/-- Layout of the register map assumed where the header constants matter:
every register offset the driver uses lies within a bank page `0x00..0xB3`,
the command register lies beyond it, and the function-register bank is not one
of the picture banks `0..7`. -/
def Regs.separated (K : Regs) : Prop :=
  0xB3 < K.ISSI_COMMANDREGISTER % 256 ∧ 8 ≤ K.ISSI_BANK_FUNCTIONREG % 256
    ∧ K.ISSI_REG_SHUTDOWN % 256 ≤ 0xB3 ∧ K.ISSI_REG_CONFIG % 256 ≤ 0xB3
    ∧ K.ISSI_REG_PICTUREFRAME % 256 ≤ 0xB3 ∧ K.ISSI_REG_AUDIOSYNC % 256 ≤ 0xB3

instance (K : Regs) : Decidable K.separated := by
  unfold Regs.separated; infer_instance

/-! ## Traces on the logging transport -/

theorem selectBank_recorder (st rx : List Call → Nat) (K : Regs) (h : Handle) (bank : Nat)
    (t : List Call) :
    selectBank (recorder st rx) K h bank t
      = (h, t ++ bankSelect h._i2caddr (K.ISSI_COMMANDREGISTER % 256) (bank % 256)) := by
  simp [selectBank, recorder, bankSelect]

theorem writeRegister8_recorder (st rx : List Call → Nat) (K : Regs) (h : Handle)
    (bank reg data : Nat) (t : List Call) :
    writeRegister8 (recorder st rx) K h bank reg data t
      = (h, t ++ regWrite h._i2caddr (K.ISSI_COMMANDREGISTER % 256) (bank % 256) (reg % 256)
          (data % 256)) := by
  simp [writeRegister8, selectBank, recorder, regWrite, bankSelect]

/-! ## Rotation of the generic layout -/

theorem rotate_eq_rotatedCoord (r : Nat) (x y : Int) (hr : r < 4) (hxy : inLogical r x y) :
    rotate r x y = rotatedCoord r x y := by
  unfold inLogical at hxy
  interval_cases r <;> simp [rotate, rotatedCoord, wrap16] at hxy ⊢ <;> omega

theorem rotatedCoord_inPhysical (r : Nat) (x y : Int) (hxy : inLogical r x y) :
    inPhysical (rotatedCoord r x y) := by
  unfold inLogical at hxy
  unfold rotatedCoord inPhysical
  split_ifs at hxy ⊢ <;> simp <;> omega

/-- C1: for every rotation `r` in `{0,1,2,3}` the rotation transform of the
generic `drawPixel`, restricted to the logical in-bounds coordinates of that
rotation, is a bijection onto the physical domain `[0,16) x [0,9)`: it maps
into the domain, no two distinct logical coordinates share an image, and every
physical coordinate is an image. -/
theorem rotate_bijOn (r : Nat) (hr : r < 4) :
    Set.BijOn (fun p : Int × Int => rotate r p.1 p.2)
      {p | inLogical r p.1 p.2} {p | inPhysical p} := by
  refine ⟨?_, ?_, ?_⟩
  · rintro ⟨x, y⟩ hp
    simp only [Set.mem_setOf_eq] at hp ⊢
    rw [rotate_eq_rotatedCoord r x y hr hp]
    exact rotatedCoord_inPhysical r x y hp
  · rintro ⟨x₁, y₁⟩ h₁ ⟨x₂, y₂⟩ h₂ he
    simp only [Set.mem_setOf_eq] at h₁ h₂
    simp only [rotate_eq_rotatedCoord r _ _ hr h₁, rotate_eq_rotatedCoord r _ _ hr h₂] at he
    unfold inLogical at h₁ h₂
    interval_cases r <;> simp [rotatedCoord] at h₁ h₂ he ⊢ <;> omega
  · rintro ⟨u, v⟩ hq
    simp only [Set.mem_setOf_eq, inPhysical] at hq
    simp only [Set.mem_image, Set.mem_setOf_eq, Prod.exists]
    have key : ∃ x y, inLogical r x y ∧ rotatedCoord r x y = (u, v) := by
      interval_cases r
      · exact ⟨u, v, by simp [inLogical]; omega, by simp [rotatedCoord]⟩
      · exact ⟨v, 15 - u, by simp [inLogical]; omega, by simp [rotatedCoord]⟩
      · exact ⟨15 - u, 8 - v, by simp [inLogical]; omega, by simp [rotatedCoord]⟩
      · exact ⟨8 - v, u, by simp [inLogical]; omega, by simp [rotatedCoord]⟩
    obtain ⟨x, y, hxy, he⟩ := key
    exact ⟨x, y, hxy, by rw [rotate_eq_rotatedCoord r x y hr hxy]; exact he⟩

theorem rotate_bijOn_witness :
    (1 : Nat) < 4 ∧
      Set.BijOn (fun p : Int × Int => rotate 1 p.1 p.2)
        {p | inLogical 1 p.1 p.2} {p | inPhysical p} :=
  ⟨by decide, rotate_bijOn 1 (by decide)⟩

/-! ## Pixel writes -/

theorem setLEDPWM_lt {σ : Type} (W : TwoWire σ) (K : Regs) (h : Handle) (lednum pwm bank : Nat)
    (s : σ) (hl : lednum < 144) :
    setLEDPWM W K h lednum pwm bank s = writeRegister8 W K h bank (0x24 + lednum) pwm s := by
  have h1 : lednum % 256 = lednum := Nat.mod_eq_of_lt (by omega)
  have h2 : ¬ (144 ≤ lednum) := by omega
  simp [setLEDPWM, writeRegister8, h1, h2]

/-- C2: for every rotation `r < 4`, every logical in-bounds `(x, y)`, every
16-bit color and every handle, the generic `drawPixel` does exactly what
`writeRegister8(_frame, 0x24 + x' + 16*y', min(color,255))` does on any
transport, where `(x', y')` is the rotated coordinate of the table; on the
logging transport it appends exactly the eight calls of that register write,
with offset and value appearing unreduced; the index is within `0..143` and
the offset at most `0xB3`. -/
theorem drawPixel_in_bounds {σ : Type} (W : TwoWire σ) (st rx : List Call → Nat) (K : Regs)
    (h : Handle) (x y : Int) (color : Nat) (s : σ) (t : List Call)
    (hr : h.rotation < 4) (hxy : inLogical h.rotation x y) (hc : color < 65536) :
    drawPixel W K h x y color s
        = writeRegister8 W K h h._frame
            (0x24 + ((rotatedCoord h.rotation x y).1 + 16 * (rotatedCoord h.rotation x y).2).toNat)
            (min color 255) s
      ∧ drawPixel (recorder st rx) K h x y color t
        = (h, t ++ regWrite h._i2caddr (K.ISSI_COMMANDREGISTER % 256) (h._frame % 256)
            (0x24 + ((rotatedCoord h.rotation x y).1 + 16 * (rotatedCoord h.rotation x y).2).toNat)
            (min color 255))
      ∧ 0 ≤ (rotatedCoord h.rotation x y).1 + 16 * (rotatedCoord h.rotation x y).2
      ∧ (rotatedCoord h.rotation x y).1 + 16 * (rotatedCoord h.rotation x y).2 ≤ 143
      ∧ 0x24 + ((rotatedCoord h.rotation x y).1 + 16 * (rotatedCoord h.rotation x y).2).toNat
          ≤ 0xB3 := by
  have hp := rotatedCoord_inPhysical h.rotation x y hxy
  have hrot := rotate_eq_rotatedCoord h.rotation x y hr hxy
  generalize rotatedCoord h.rotation x y = p at hp hrot
  obtain ⟨u, v⟩ := p
  simp only [inPhysical] at hp
  obtain ⟨hu0, hu1, hv0, hv1⟩ := hp
  have hidx : toU8 (u + v * 16) = (u + 16 * v).toNat := by
    unfold toU8
    congr 1
    omega
  have hlt : (u + 16 * v).toNat < 144 := by omega
  have hcol : (if color > 255 then 255 else color) = min color 255 := by
    split_ifs <;> omega
  have hgen : ∀ {τ : Type} (V : TwoWire τ) (z : τ), drawPixel V K h x y color z
      = writeRegister8 V K h h._frame (0x24 + (u + 16 * v).toNat) (min color 255) z := by
    intro τ V z
    have e1 : ¬ (u < 0 ∨ 16 ≤ u) := by omega
    have e2 : ¬ (v < 0 ∨ 9 ≤ v) := by omega
    have e3 : color % 65536 = color := Nat.mod_eq_of_lt hc
    simp only [drawPixel, hrot, e3, ge_iff_le, e1, e2, if_false, hidx, hcol]
    exact setLEDPWM_lt V K h _ _ _ z hlt
  refine ⟨hgen W s, ?_, by omega, by omega, by omega⟩
  rw [hgen, writeRegister8_recorder]
  have m1 : (0x24 + (u + 16 * v).toNat) % 256 = 0x24 + (u + 16 * v).toNat :=
    Nat.mod_eq_of_lt (by omega)
  have m2 : min color 255 % 256 = min color 255 := Nat.mod_eq_of_lt (by omega)
  rw [m1, m2]

theorem drawPixel_in_bounds_witness :
    (Handle.mk 0x74 2 1).rotation < 4 ∧ inLogical (Handle.mk 0x74 2 1).rotation 3 5 ∧
      (300 : Nat) < 65536 ∧
      drawPixel ackWire sampleRegs
          (Handle.mk 0x74 2 1) 3 5 300 []
        = (Handle.mk 0x74 2 1, [] ++ regWrite 0x74 0xFD 2 (0x24 + 58) 255) :=
  ⟨by decide, by decide, by decide,
    (drawPixel_in_bounds ackWire (fun _ => 0) (fun _ => 0)
      sampleRegs (Handle.mk 0x74 2 1) 3 5 300 [] []
      (by decide) (by decide) (by decide)).2.1⟩

/-- C3: for both layouts, every `x`, `y`, handle (rotation, active frame) and
every color `c` with `255 < c <= 65535`, `drawPixel(x, y, c)` yields the same
handle and the same transport state as `drawPixel(x, y, 255)` on every
transport, hence the same trace on the logging transport. -/
theorem drawPixel_clamp {σ : Type} (W : TwoWire σ) (K : Regs) (h : Handle) (x y : Int)
    (c : Nat) (s : σ) (h1 : 255 < c) (h2 : c ≤ 65535) :
    drawPixel W K h x y c s = drawPixel W K h x y 255 s
      ∧ Wing.drawPixel W K h x y c s = Wing.drawPixel W K h x y 255 s := by
  have e : c % 65536 = c := Nat.mod_eq_of_lt (by omega)
  simp [drawPixel, Wing.drawPixel, e, h1]

theorem drawPixel_clamp_witness :
    drawPixel ackWire sampleRegs
        (Handle.mk 0x74 0 0) 1 1 256 []
        = drawPixel ackWire sampleRegs
            (Handle.mk 0x74 0 0) 1 1 255 []
      ∧ Wing.drawPixel ackWire sampleRegs
          (Handle.mk 0x74 0 0) 1 1 256 []
        = Wing.drawPixel ackWire sampleRegs
            (Handle.mk 0x74 0 0) 1 1 255 [] :=
  drawPixel_clamp _ _ _ 1 1 256 [] (by decide) (by decide)

/-- C4: for every `lednum` in `144..255` and every `pwm` and `bank`,
`setLEDPWM` returns the handle and the transport state untouched (no transport
call, empty trace on the logging transport); for every `lednum < 144` it is
exactly one `writeRegister8(bank, 0x24 + lednum, pwm)`, whose trace is one
bank select of `bank` and one two-byte transaction `(0x24 + lednum, pwm)`. -/
theorem setLEDPWM_spec {σ : Type} (W : TwoWire σ) (st rx : List Call → Nat) (K : Regs)
    (h : Handle) (lednum pwm bank : Nat) (s : σ) (t : List Call) :
    (144 ≤ lednum → lednum ≤ 255 →
        setLEDPWM W K h lednum pwm bank s = (h, s)
          ∧ setLEDPWM (recorder st rx) K h lednum pwm bank t = (h, t))
      ∧ (lednum < 144 →
        setLEDPWM W K h lednum pwm bank s = writeRegister8 W K h bank (0x24 + lednum) pwm s
          ∧ setLEDPWM (recorder st rx) K h lednum pwm bank t
            = (h, t ++ regWrite h._i2caddr (K.ISSI_COMMANDREGISTER % 256) (bank % 256)
                (0x24 + lednum) (pwm % 256))) := by
  constructor
  · intro h1 h2
    have e : lednum % 256 = lednum := Nat.mod_eq_of_lt (by omega)
    simp [setLEDPWM, e, h1]
  · intro h1
    refine ⟨setLEDPWM_lt W K h lednum pwm bank s h1, ?_⟩
    rw [setLEDPWM_lt _ K h lednum pwm bank t h1, writeRegister8_recorder]
    have e : (0x24 + lednum) % 256 = 0x24 + lednum := Nat.mod_eq_of_lt (by omega)
    rw [e]

theorem setLEDPWM_spec_witness :
    setLEDPWM ackWire sampleRegs
        (Handle.mk 0x74 0 0) 144 9 3 [] = (Handle.mk 0x74 0 0, [])
      ∧ setLEDPWM ackWire sampleRegs
          (Handle.mk 0x74 0 0) 143 9 3 []
        = (Handle.mk 0x74 0 0, [] ++ regWrite 0x74 0xFD 3 0xB3 9) :=
  ⟨((setLEDPWM_spec ackWire (fun _ => 0) (fun _ => 0)
      sampleRegs (Handle.mk 0x74 0 0) 144 9 3 [] []).1
      (by decide) (by decide)).2,
    ((setLEDPWM_spec ackWire (fun _ => 0) (fun _ => 0)
      sampleRegs (Handle.mk 0x74 0 0) 143 9 3 [] []).2
      (by decide)).2⟩

/-! ## Clearing the active frame on the device-memory model -/

theorem storeBytes_apply (ds : List Nat) (mem : Nat → Nat → Nat) (bank reg b r : Nat) :
    storeBytes mem bank reg ds b r
      = if b = bank ∧ reg ≤ r ∧ r < reg + ds.length then ds.getD (r - reg) 0 else mem b r := by
  induction ds generalizing mem reg with
  | nil =>
    have h0 : ¬ (b = bank ∧ reg ≤ r ∧ r < reg + ([] : List Nat).length) := by
      simp only [List.length_nil]; omega
    rw [storeBytes, if_neg h0]
  | cons d ds ih =>
    rw [storeBytes, ih]
    by_cases hb : b = bank
    · by_cases h1 : reg + 1 ≤ r
      · have e : r - reg = (r - (reg + 1)) + 1 := by omega
        by_cases h2 : r < reg + 1 + ds.length
        · have h3 : r < reg + (ds.length + 1) := by omega
          have h4 : reg ≤ r := by omega
          simp [hb, h1, h2, h3, h4, e]
        · have h3 : ¬ r < reg + (ds.length + 1) := by omega
          have h4 : r ≠ reg := by omega
          simp [hb, h2, h3, h4]
      · by_cases h2 : r = reg
        · subst h2
          simp [hb]
        · have h3 : ¬ reg ≤ r := by omega
          simp [hb, h1, h2, h3]
    · simp [hb]

theorem storeBytes_zeros (n : Nat) (mem : Nat → Nat → Nat) (bank reg b r : Nat) :
    storeBytes mem bank reg (List.replicate n 0) b r
      = if b = bank ∧ reg ≤ r ∧ r < reg + n then 0 else mem b r := by
  rw [storeBytes_apply]
  by_cases h : b = bank ∧ reg ≤ r ∧ r < reg + n
  · have h2 : b = bank ∧ reg ≤ r ∧ r < reg + (List.replicate n 0).length := by simpa using h
    rw [if_pos h, if_pos h2, List.getD_eq_getElem?_getD]
    have h3 : r - reg < n := by omega
    simp [List.getElem?_replicate, h3]
  · have h2 : ¬ (b = bank ∧ reg ≤ r ∧ r < reg + (List.replicate n 0).length) := by simpa using h
    rw [if_neg h, if_neg h2]

theorem selectBank_chip (K : Regs) (h : Handle) (bank : Nat) (c : Chip) :
    selectBank (chipWire (K.ISSI_COMMANDREGISTER % 256)) K h bank c
      = (h, { c with bank := bank % 256, buf := [] }) := by
  simp [selectBank, chipWire, Chip.commit]

theorem foldl_write_zero_chip {α : Type} (cmd : Nat) (l : List α) (c : Chip) :
    l.foldl (fun s _ => (chipWire cmd).write 0 s) c
      = { c with buf := c.buf ++ List.replicate l.length 0 } := by
  induction l generalizing c with
  | nil => simp
  | cons a l ih =>
    rw [List.foldl_cons, ih]
    simp [chipWire, List.replicate_succ]

theorem clearChunk_chip (cmd : Nat) (h : Handle) (c : Chip) (i : Nat) (hi : i < 6)
    (hcmd : cmd < 0x24 ∨ 0xB3 < cmd) :
    clearChunk (chipWire cmd) h c i
      = { c with mem := storeBytes c.mem c.bank (0x24 + i * 24) (List.replicate 24 0),
                 ptr := 0x24 + i * 24 + 24, buf := [] } := by
  have e : (0x24 + i * 24) % 256 = 0x24 + i * 24 := Nat.mod_eq_of_lt (by omega)
  have ne : ¬ (0x24 + i * 24 = cmd) := by omega
  simp only [clearChunk, foldl_write_zero_chip, List.length_range, e]
  simp [chipWire, Chip.commit, ne]

theorem clear_chip (K : Regs) (h : Handle) (c : Chip)
    (hcmd : K.ISSI_COMMANDREGISTER % 256 < 0x24 ∨ 0xB3 < K.ISSI_COMMANDREGISTER % 256) :
    clear (chipWire (K.ISSI_COMMANDREGISTER % 256)) K h c
      = (h, { c with
                mem := fun b r =>
                  if b = h._frame % 256 ∧ 0x24 ≤ r ∧ r ≤ 0xB3 then 0 else c.mem b r,
                bank := h._frame % 256, ptr := 0xB4, buf := [] }) := by
  have r6 : List.range 6 = [0, 1, 2, 3, 4, 5] := by decide
  simp only [clear, selectBank_chip, r6, List.foldl_cons, List.foldl_nil]
  rw [clearChunk_chip _ _ _ 0 (by omega) hcmd, clearChunk_chip _ _ _ 1 (by omega) hcmd,
    clearChunk_chip _ _ _ 2 (by omega) hcmd, clearChunk_chip _ _ _ 3 (by omega) hcmd,
    clearChunk_chip _ _ _ 4 (by omega) hcmd, clearChunk_chip _ _ _ 5 (by omega) hcmd]
  simp only [Prod.mk.injEq, true_and]
  congr 1
  funext b r
  simp only [storeBytes_zeros]
  split_ifs <;> first | rfl | omega

theorem readRegister8_chip (K : Regs) (h : Handle) (bank reg : Nat) (c : Chip)
    (hreg : reg % 256 ≠ K.ISSI_COMMANDREGISTER % 256) :
    readRegister8 (chipWire (K.ISSI_COMMANDREGISTER % 256)) K h bank reg c
      = (c.mem (bank % 256) (reg % 256) % 256, h,
          { c with bank := bank % 256, ptr := reg % 256 + 1, buf := [], rxq := [] }) := by
  have r1 : List.range 1 = [0] := by decide
  simp [readRegister8, selectBank_chip]
  simp [chipWire, Chip.commit, hreg, storeBytes, r1]

/-- C5: on the device-memory model (a multi-byte write stores successive bytes
at successive offsets of the selected bank; the command register lies outside
the PWM range `0x24..0xB3`), for every initial chip state and every handle
(active frame), `readRegister8(_frame, 0x24 + i)` after `clear()` returns 0
for every `i` in `0..143`. -/
theorem clear_then_read_zero (K : Regs) (h : Handle) (c : Chip) (i : Nat) (hi : i < 144)
    (hcmd : K.ISSI_COMMANDREGISTER % 256 < 0x24 ∨ 0xB3 < K.ISSI_COMMANDREGISTER % 256) :
    (readRegister8 (chipWire (K.ISSI_COMMANDREGISTER % 256)) K
        (clear (chipWire (K.ISSI_COMMANDREGISTER % 256)) K h c).1
        (clear (chipWire (K.ISSI_COMMANDREGISTER % 256)) K h c).1._frame (0x24 + i)
        (clear (chipWire (K.ISSI_COMMANDREGISTER % 256)) K h c).2).1 = 0 := by
  have e : (0x24 + i) % 256 = 0x24 + i := Nat.mod_eq_of_lt (by omega)
  rw [clear_chip K h c hcmd, readRegister8_chip K _ _ _ _ (by omega)]
  have hin : 0x24 ≤ 0x24 + i ∧ 0x24 + i ≤ 0xB3 := by omega
  simp [e, hin]

theorem clear_then_read_zero_witness :
    (143 : Nat) < 144 ∧
      (sampleRegs.ISSI_COMMANDREGISTER % 256 < 0x24 ∨ 0xB3 < sampleRegs.ISSI_COMMANDREGISTER % 256)
      ∧ (readRegister8 (chipWire (sampleRegs.ISSI_COMMANDREGISTER % 256)) sampleRegs
          (clear (chipWire (sampleRegs.ISSI_COMMANDREGISTER % 256)) sampleRegs
            (Handle.mk 0x74 5 0) dirtyChip).1
          (clear (chipWire (sampleRegs.ISSI_COMMANDREGISTER % 256)) sampleRegs
            (Handle.mk 0x74 5 0) dirtyChip).1._frame (0x24 + 143)
          (clear (chipWire (sampleRegs.ISSI_COMMANDREGISTER % 256)) sampleRegs
            (Handle.mk 0x74 5 0) dirtyChip).2).1 = 0 :=
  ⟨by decide, by decide,
    clear_then_read_zero sampleRegs (Handle.mk 0x74 5 0) dirtyChip 143 (by decide) (by decide)⟩

/-! ## Frame display and initialisation -/

theorem writeRegister8_handle {σ : Type} (W : TwoWire σ) (K : Regs) (h : Handle)
    (bank reg data : Nat) (s : σ) : (writeRegister8 W K h bank reg data s).1 = h := rfl

/-- C6: for every 8-bit `frame`, `displayFrame(frame)` is exactly one
`writeRegister8` to the picture-frame register of the function-register bank
with data `frame` when `frame <= 7` and `0` otherwise (on the logging
transport: one bank select and one two-byte transaction), and the handle,
in particular its active frame, is returned unchanged. -/
theorem displayFrame_spec {σ : Type} (W : TwoWire σ) (st rx : List Call → Nat) (K : Regs)
    (h : Handle) (frame : Nat) (s : σ) (t : List Call) (hf : frame < 256) :
    displayFrame W K h frame s
        = writeRegister8 W K h K.ISSI_BANK_FUNCTIONREG K.ISSI_REG_PICTUREFRAME
            (if frame ≤ 7 then frame else 0) s
      ∧ displayFrame (recorder st rx) K h frame t
        = (h, t ++ regWrite h._i2caddr (K.ISSI_COMMANDREGISTER % 256)
            (K.ISSI_BANK_FUNCTIONREG % 256) (K.ISSI_REG_PICTUREFRAME % 256)
            (if frame ≤ 7 then frame else 0))
      ∧ (displayFrame W K h frame s).1 = h
      ∧ (displayFrame W K h frame s).1._frame = h._frame := by
  have e : frame % 256 = frame := Nat.mod_eq_of_lt hf
  have hd : (if frame % 256 > 7 then 0 else frame % 256) = (if frame ≤ 7 then frame else 0) := by
    rw [e]; split_ifs <;> omega
  have hg : ∀ {τ : Type} (V : TwoWire τ) (z : τ), displayFrame V K h frame z
      = writeRegister8 V K h K.ISSI_BANK_FUNCTIONREG K.ISSI_REG_PICTUREFRAME
          (if frame ≤ 7 then frame else 0) z := by
    intro τ V z
    simp only [displayFrame, hd]
  refine ⟨hg W s, ?_, ?_, ?_⟩
  · rw [hg, writeRegister8_recorder]
    have m : (if frame ≤ 7 then frame else 0) % 256 = (if frame ≤ 7 then frame else 0) :=
      Nat.mod_eq_of_lt (by split_ifs <;> omega)
    rw [m]
  · rw [hg, writeRegister8_handle]
  · rw [hg, writeRegister8_handle]

theorem displayFrame_spec_witness :
    (200 : Nat) < 256 ∧
      displayFrame ackWire sampleRegs (Handle.mk 0x74 3 0) 200 []
        = (Handle.mk 0x74 3 0, [] ++ regWrite 0x74 0xFD 0x0B 0x01 0) :=
  ⟨by decide,
    (displayFrame_spec ackWire (fun _ => 0) (fun _ => 0) sampleRegs (Handle.mk 0x74 3 0) 200
      [] [] (by decide)).2.1⟩

theorem foldl_write_zero_recorder {α : Type} (st rx : List Call → Nat) (l : List α)
    (t : List Call) :
    l.foldl (fun s _ => (recorder st rx).write 0 s) t
      = t ++ List.replicate l.length (Call.write 0) := by
  induction l generalizing t with
  | nil => simp
  | cons a l ih =>
    rw [List.foldl_cons, ih]
    simp [recorder, List.replicate_succ]

theorem clearChunk_recorder (st rx : List Call → Nat) (h : Handle) (t : List Call) (i : Nat)
    (hi : i < 6) :
    clearChunk (recorder st rx) h t i
      = t ++ ([Call.beginTransmission h._i2caddr, Call.write (0x24 + 24 * i)]
          ++ List.replicate 24 (Call.write 0) ++ [Call.endTransmission]) := by
  have e : (0x24 + i * 24) % 256 = 0x24 + 24 * i := by omega
  simp only [clearChunk, foldl_write_zero_recorder, List.length_range, e]
  simp [recorder]

theorem clear_recorder (st rx : List Call → Nat) (K : Regs) (h : Handle) (t : List Call) :
    clear (recorder st rx) K h t
      = (h, t ++ clearTrace h._i2caddr (K.ISSI_COMMANDREGISTER % 256) (h._frame % 256)) := by
  have r6 : List.range 6 = [0, 1, 2, 3, 4, 5] := by decide
  simp only [clear, selectBank_recorder, clearTrace, r6, List.foldl_cons, List.foldl_nil,
    List.flatMap_cons, List.flatMap_nil]
  rw [clearChunk_recorder _ _ _ _ 0 (by omega), clearChunk_recorder _ _ _ _ 1 (by omega),
    clearChunk_recorder _ _ _ _ 2 (by omega), clearChunk_recorder _ _ _ _ 3 (by omega),
    clearChunk_recorder _ _ _ _ 4 (by omega), clearChunk_recorder _ _ _ _ 5 (by omega)]
  simp only [List.append_assoc, List.append_nil]

theorem foldl_writeRegister8_recorder (st rx : List Call → Nat) (K : Regs) (f d : Nat)
    (l : List Nat) (h : Handle) (t : List Call) :
    l.foldl (fun hs i => writeRegister8 (recorder st rx) K hs.1 f i d hs.2) (h, t)
      = (h, t ++ l.flatMap (fun i =>
          regWrite h._i2caddr (K.ISSI_COMMANDREGISTER % 256) (f % 256) (i % 256) (d % 256))) := by
  induction l generalizing t with
  | nil => simp
  | cons a l ih =>
    rw [List.foldl_cons, writeRegister8_recorder, ih]
    simp [List.append_assoc]

theorem enableAll_recorder (st rx : List Call → Nat) (K : Regs) (h : Handle) (t : List Call) :
    enableAll (recorder st rx) K h t
      = (h, t ++ enableTrace h._i2caddr (K.ISSI_COMMANDREGISTER % 256)) := by
  have key : ∀ (l : List Nat) (t : List Call), (∀ f ∈ l, f < 256) →
      l.foldl (fun hs f => (List.range 0x12).foldl
          (fun hs i => writeRegister8 (recorder st rx) K hs.1 f i 0xff hs.2) hs) (h, t)
        = (h, t ++ l.flatMap (fun f => (List.range 18).flatMap (fun i =>
            regWrite h._i2caddr (K.ISSI_COMMANDREGISTER % 256) f i 0xFF))) := by
    intro l
    induction l with
    | nil => intro t _; simp
    | cons f l ih =>
      intro t hl
      have hf : f % 256 = f := Nat.mod_eq_of_lt (hl f (List.mem_cons_self _ _))
      rw [List.foldl_cons, foldl_writeRegister8_recorder, ih _ (fun g hg => hl g (List.mem_cons_of_mem _ hg))]
      have inner : (List.range 0x12).flatMap (fun i =>
            regWrite h._i2caddr (K.ISSI_COMMANDREGISTER % 256) (f % 256) (i % 256) (0xff % 256))
          = (List.range 18).flatMap (fun i =>
            regWrite h._i2caddr (K.ISSI_COMMANDREGISTER % 256) f i 0xFF) := by
        rw [hf]
        apply List.flatMap_congr
        intro i hi
        have hi2 : i < 18 := List.mem_range.mp hi
        have hi3 : i % 256 = i := Nat.mod_eq_of_lt (by omega)
        rw [hi3]
      rw [inner]
      simp [List.append_assoc]
  unfold enableAll enableTrace
  exact key (List.range 8) t (fun f hf => by have := List.mem_range.mp hf; omega)

/-- C7: on every logging transport whose probe is acknowledged, `begin(addr)`
returns true and appends exactly, in this order: the bus set-up and the empty
probe transaction, the shutdown write (`SHUTDOWN := 0x00`), `delay(10)`, the
exit-shutdown write (`SHUTDOWN := 0x01`), the picture-mode write
(`CONFIG := PICTUREMODE`), the display-frame write (`PICTUREFRAME := 0`), the
batched clear of frame 0, the LED-enable writes, and last the audio-sync
disable write (`AUDIOSYNC := 0`). -/
theorem begin_trace_ack (st rx : List Call → Nat) (K : Regs) (h : Handle) (addr : Nat)
    (t : List Call) (hack : st (t ++ probeCalls (addr % 256)) = 0) :
    begin (recorder st rx) K h addr t
      = (true, { h with _i2caddr := addr % 256, _frame := 0 },
          t ++ (probeCalls (addr % 256) ++ [Call.endTransmission]
            ++ regWrite (addr % 256) (K.ISSI_COMMANDREGISTER % 256)
                (K.ISSI_BANK_FUNCTIONREG % 256) (K.ISSI_REG_SHUTDOWN % 256) 0x00
            ++ [Call.delay 10]
            ++ regWrite (addr % 256) (K.ISSI_COMMANDREGISTER % 256)
                (K.ISSI_BANK_FUNCTIONREG % 256) (K.ISSI_REG_SHUTDOWN % 256) 0x01
            ++ regWrite (addr % 256) (K.ISSI_COMMANDREGISTER % 256)
                (K.ISSI_BANK_FUNCTIONREG % 256) (K.ISSI_REG_CONFIG % 256)
                (K.ISSI_REG_CONFIG_PICTUREMODE % 256)
            ++ regWrite (addr % 256) (K.ISSI_COMMANDREGISTER % 256)
                (K.ISSI_BANK_FUNCTIONREG % 256) (K.ISSI_REG_PICTUREFRAME % 256) 0
            ++ clearTrace (addr % 256) (K.ISSI_COMMANDREGISTER % 256) 0
            ++ enableTrace (addr % 256) (K.ISSI_COMMANDREGISTER % 256)
            ++ regWrite (addr % 256) (K.ISSI_COMMANDREGISTER % 256)
                (K.ISSI_BANK_FUNCTIONREG % 256) (K.ISSI_REG_AUDIOSYNC % 256) 0)) := by
  have hack2 : st (t ++ [Call.begin] ++ [Call.setClock 400000]
      ++ [Call.beginTransmission (addr % 256)]) = 0 := by
    simpa [probeCalls, List.append_assoc] using hack
  have p1 : (recorder st rx).begin t = t ++ [Call.begin] := rfl
  have p2 : ∀ u, (recorder st rx).setClock 400000 u = u ++ [Call.setClock 400000] := fun _ => rfl
  have p3 : ∀ a u, (recorder st rx).beginTransmission a u = u ++ [Call.beginTransmission a] :=
    fun _ _ => rfl
  have p4 : ∀ u, (recorder st rx).endTransmission u = (u ++ [Call.endTransmission], st u) :=
    fun _ => rfl
  have p5 : ∀ u, (recorder st rx).delay 10 u = u ++ [Call.delay 10] := fun _ => rfl
  simp only [begin, p1, p2, p3, p4, p5, hack2, ne_eq, not_true_eq_false, if_false,
    writeRegister8_recorder, displayFrame, audioSync, clear_recorder, enableAll_recorder,
    Bool.false_eq_true]
  simp [probeCalls, List.append_assoc]

theorem begin_trace_ack_witness :
    (fun _ : List Call => 0) ([] ++ probeCalls (0x74 % 256)) = 0 ∧
      (begin ackWire sampleRegs (Handle.mk 0 5 0) 0x74 []).1 = true ∧
      (begin ackWire sampleRegs (Handle.mk 0 5 0) 0x74 []).2.1 = Handle.mk 0x74 0 0 :=
  ⟨rfl,
    by rw [ackWire, begin_trace_ack (fun _ => 0) (fun _ => 0) sampleRegs (Handle.mk 0 5 0) 0x74 []
      rfl],
    by rw [ackWire, begin_trace_ack (fun _ => 0) (fun _ => 0) sampleRegs (Handle.mk 0 5 0) 0x74 []
      rfl]⟩

/-- C8: `begin(addr)` returns true if and only if the status of the probe's
`endTransmission` is 0; when it is non-zero, `begin` returns false and the
transport is left right after the empty probe transaction: on the logging
transport the trace is the bus set-up, `beginTransmission(addr)` and
`endTransmission`, and nothing more. -/
theorem begin_probe {σ : Type} (W : TwoWire σ) (st rx : List Call → Nat) (K : Regs)
    (h : Handle) (addr : Nat) (s : σ) (t : List Call) :
    ((begin W K h addr s).1 = true ↔
        (W.endTransmission (W.beginTransmission (addr % 256)
          (W.setClock 400000 (W.begin s)))).2 = 0)
      ∧ ((W.endTransmission (W.beginTransmission (addr % 256)
            (W.setClock 400000 (W.begin s)))).2 ≠ 0 →
          begin W K h addr s
            = (false, { h with _i2caddr := addr % 256, _frame := 0 },
                (W.endTransmission (W.beginTransmission (addr % 256)
                  (W.setClock 400000 (W.begin s)))).1))
      ∧ ((begin (recorder st rx) K h addr t).1 = true ↔ st (t ++ probeCalls (addr % 256)) = 0)
      ∧ (st (t ++ probeCalls (addr % 256)) ≠ 0 →
          begin (recorder st rx) K h addr t
            = (false, { h with _i2caddr := addr % 256, _frame := 0 },
                t ++ probeCalls (addr % 256) ++ [Call.endTransmission])) := by
  have g1 : ∀ {τ : Type} (V : TwoWire τ) (z : τ),
      ((begin V K h addr z).1 = true ↔
        (V.endTransmission (V.beginTransmission (addr % 256)
          (V.setClock 400000 (V.begin z)))).2 = 0) := by
    intro τ V z
    by_cases hs : (V.endTransmission (V.beginTransmission (addr % 256)
        (V.setClock 400000 (V.begin z)))).2 = 0
    · simp [begin, hs]
    · simp [begin, hs]
  have g2 : ∀ {τ : Type} (V : TwoWire τ) (z : τ),
      (V.endTransmission (V.beginTransmission (addr % 256)
          (V.setClock 400000 (V.begin z)))).2 ≠ 0 →
        begin V K h addr z
          = (false, { h with _i2caddr := addr % 256, _frame := 0 },
              (V.endTransmission (V.beginTransmission (addr % 256)
                (V.setClock 400000 (V.begin z)))).1) := by
    intro τ V z hs
    simp [begin, hs]
  have e : ∀ u : List Call, (recorder st rx).endTransmission
      ((recorder st rx).beginTransmission (addr % 256)
        ((recorder st rx).setClock 400000 ((recorder st rx).begin u)))
      = (u ++ probeCalls (addr % 256) ++ [Call.endTransmission], st (u ++ probeCalls (addr % 256))) := by
    intro u
    simp [recorder, probeCalls, List.append_assoc]
  refine ⟨g1 W s, g2 W s, ?_, ?_⟩
  · have := g1 (recorder st rx) t
    rw [e] at this
    exact this
  · intro hs
    have := g2 (recorder st rx) t
    rw [e] at this
    exact this hs

theorem begin_probe_witness :
    (fun _ : List Call => 2) ([] ++ probeCalls (0x74 % 256)) ≠ 0 ∧
      begin (recorder (fun _ => 2) (fun _ => 0)) sampleRegs (Handle.mk 0 5 0) 0x74 []
        = (false, Handle.mk 0x74 0 0,
            [Call.begin, Call.setClock 400000, Call.beginTransmission 0x74,
              Call.endTransmission]) :=
  ⟨by decide,
    (begin_probe ackWire (fun _ => 2) (fun _ => 0) sampleRegs (Handle.mk 0 5 0) 0x74 [] []).2.2.2
      (by decide)⟩

/-! ## Wing layout -/

theorem Wing.drawPixel_accepted {σ : Type} (W : TwoWire σ) (K : Regs) (h : Handle) (x y : Int)
    (color : Nat) (s : σ) (hc : color < 65536)
    (hx0 : 0 ≤ (Wing.rotate h.rotation x y).1) (hx1 : (Wing.rotate h.rotation x y).1 < 16)
    (hy0 : 0 ≤ (Wing.rotate h.rotation x y).2) (hy1 : (Wing.rotate h.rotation x y).2 < 7) :
    Wing.drawPixel W K h x y color s
      = setLEDPWM W K h
          (wingIndex (Wing.rotate h.rotation x y).1 (Wing.rotate h.rotation x y).2).toNat
          (min color 255) h._frame s := by
  simp only [Wing.drawPixel]
  generalize Wing.rotate h.rotation x y = p at hx0 hx1 hy0 hy1 ⊢
  obtain ⟨u, v⟩ := p
  simp only at hx0 hx1 hy0 hy1
  have e1 : ¬ (u < 0 ∨ 16 ≤ u ∨ v < 0 ∨ 7 ≤ v) := by omega
  have e3 : color % 65536 = color := Nat.mod_eq_of_lt hc
  have hcol : (if color > 255 then 255 else color) = min color 255 := by
    split_ifs <;> omega
  have hidx : toU8 ((Wing.fold u v).1 + (Wing.fold u v).2 * 16) = (wingIndex u v).toNat := by
    unfold toU8 Wing.fold wingIndex wrap16
    congr 1
    by_cases h7 : u > 7
    · have h8 : ¬ u ≤ 7 := by omega
      simp only [h7, h8, if_true, if_false]
      omega
    · have h8 : u ≤ 7 := by omega
      simp only [h7, h8, if_true, if_false]
      omega
  simp only [e3, ge_iff_le, e1, if_false, hidx, hcol]

/-- C9 as stated fails: at rotation 0 the wing `drawPixel(0, 0, c)` folds the
origin to `(x, y) = (7, 0)`, so it is not `setLEDPWM(0, ...)`: the register
written is `0x2B`, not `0x24`. -/
theorem wing_origin_not_index_zero :
    Wing.fold 0 0 = (7, 0)
      ∧ Wing.drawPixel ackWire sampleRegs (Handle.mk 0x74 0 0) 0 0 255 []
          ≠ setLEDPWM ackWire sampleRegs (Handle.mk 0x74 0 0) 0 255 0 []
      ∧ Wing.drawPixel ackWire sampleRegs (Handle.mk 0x74 0 0) 0 0 255 []
          = (Handle.mk 0x74 0 0, regWrite 0x74 0xFD 0 0x2B 255)
      ∧ setLEDPWM ackWire sampleRegs (Handle.mk 0x74 0 0) 0 255 0 []
          = (Handle.mk 0x74 0 0, regWrite 0x74 0xFD 0 0x24 255) := by
  decide

/-- C9 (amended): in the wing layout at rotation 0, `drawPixel` at logical
`(0,0)` resolves to linear LED index 7: it is `setLEDPWM(7, min(c,255),
_frame)` and writes PWM register offset `0x2B` of the active frame. -/
theorem wing_origin_index_seven {σ : Type} (W : TwoWire σ) (st rx : List Call → Nat) (K : Regs)
    (h : Handle) (c : Nat) (s : σ) (t : List Call) (hr : h.rotation = 0) (hc : c < 65536) :
    Wing.drawPixel W K h 0 0 c s = setLEDPWM W K h 7 (min c 255) h._frame s
      ∧ Wing.drawPixel (recorder st rx) K h 0 0 c t
        = (h, t ++ regWrite h._i2caddr (K.ISSI_COMMANDREGISTER % 256) (h._frame % 256) 0x2B
            (min c 255)) := by
  have hg : ∀ {τ : Type} (V : TwoWire τ) (z : τ),
      Wing.drawPixel V K h 0 0 c z = setLEDPWM V K h 7 (min c 255) h._frame z := by
    intro τ V z
    have := Wing.drawPixel_accepted V K h 0 0 c z hc (by simp [hr, Wing.rotate])
      (by simp [hr, Wing.rotate]) (by simp [hr, Wing.rotate]) (by simp [hr, Wing.rotate])
    rw [this]
    simp [hr, Wing.rotate, wingIndex]
  refine ⟨hg W s, ?_⟩
  rw [hg, setLEDPWM_lt _ _ _ _ _ _ _ (by omega), writeRegister8_recorder]
  have m2 : min c 255 % 256 = min c 255 := Nat.mod_eq_of_lt (by omega)
  rw [m2]

theorem wing_origin_index_seven_witness :
    (Handle.mk 0x74 3 0).rotation = 0 ∧ (1000 : Nat) < 65536 ∧
      Wing.drawPixel ackWire sampleRegs (Handle.mk 0x74 3 0) 0 0 1000 []
        = (Handle.mk 0x74 3 0, [] ++ regWrite 0x74 0xFD 3 0x2B 255) :=
  ⟨rfl, by decide,
    (wing_origin_index_seven ackWire (fun _ => 0) (fun _ => 0) sampleRegs (Handle.mk 0x74 3 0)
      1000 [] [] rfl (by decide)).2⟩

/-- C10: for every post-rotation coordinate `(x, y)` with `0 <= x < 16` and
`0 <= y < 7`, the wing `drawPixel` passes to `setLEDPWM` the index
`(7-y) + 16*x` when `x <= 7` (low nibble in `1..7`) and `(y+8) + 16*(15-x)`
when `x > 7` (low nibble in `8..14`), and writes PWM register `0x24 + index`;
in particular logical `(8,0)` at rotation 0 resolves to index 120, whose low
nibble 8 lies in the second half. -/
theorem wing_fold_index {σ : Type} (W : TwoWire σ) (st rx : List Call → Nat) (K : Regs)
    (h : Handle) (x y : Int) (color : Nat) (s : σ) (t : List Call) (hc : color < 65536)
    (hx0 : 0 ≤ (Wing.rotate h.rotation x y).1) (hx1 : (Wing.rotate h.rotation x y).1 < 16)
    (hy0 : 0 ≤ (Wing.rotate h.rotation x y).2) (hy1 : (Wing.rotate h.rotation x y).2 < 7) :
    Wing.drawPixel W K h x y color s
        = setLEDPWM W K h
            (wingIndex (Wing.rotate h.rotation x y).1 (Wing.rotate h.rotation x y).2).toNat
            (min color 255) h._frame s
      ∧ Wing.drawPixel (recorder st rx) K h x y color t
        = (h, t ++ regWrite h._i2caddr (K.ISSI_COMMANDREGISTER % 256) (h._frame % 256)
            (0x24 +
              (wingIndex (Wing.rotate h.rotation x y).1 (Wing.rotate h.rotation x y).2).toNat)
            (min color 255))
      ∧ ((Wing.rotate h.rotation x y).1 ≤ 7 →
          wingIndex (Wing.rotate h.rotation x y).1 (Wing.rotate h.rotation x y).2
              = (7 - (Wing.rotate h.rotation x y).2) + 16 * (Wing.rotate h.rotation x y).1
            ∧ 1 ≤ wingIndex (Wing.rotate h.rotation x y).1 (Wing.rotate h.rotation x y).2 % 16
            ∧ wingIndex (Wing.rotate h.rotation x y).1 (Wing.rotate h.rotation x y).2 % 16 ≤ 7)
      ∧ ((Wing.rotate h.rotation x y).1 > 7 →
          wingIndex (Wing.rotate h.rotation x y).1 (Wing.rotate h.rotation x y).2
              = ((Wing.rotate h.rotation x y).2 + 8) + 16 * (15 - (Wing.rotate h.rotation x y).1)
            ∧ 8 ≤ wingIndex (Wing.rotate h.rotation x y).1 (Wing.rotate h.rotation x y).2 % 16
            ∧ wingIndex (Wing.rotate h.rotation x y).1 (Wing.rotate h.rotation x y).2 % 16 ≤ 14)
      ∧ (h.rotation = 0 → x = 8 → y = 0 →
          Wing.drawPixel W K h x y color s = setLEDPWM W K h 120 (min color 255) h._frame s
            ∧ (120 : Int) % 16 = 8) := by
  refine ⟨Wing.drawPixel_accepted W K h x y color s hc hx0 hx1 hy0 hy1, ?_, ?_, ?_, ?_⟩
  · rw [Wing.drawPixel_accepted _ K h x y color t hc hx0 hx1 hy0 hy1]
    have hlt : (wingIndex (Wing.rotate h.rotation x y).1 (Wing.rotate h.rotation x y).2).toNat
        < 144 := by
      unfold wingIndex
      split_ifs <;> omega
    rw [setLEDPWM_lt _ _ _ _ _ _ _ hlt, writeRegister8_recorder]
    have m1 : (0x24 + (wingIndex (Wing.rotate h.rotation x y).1
        (Wing.rotate h.rotation x y).2).toNat) % 256
        = 0x24 + (wingIndex (Wing.rotate h.rotation x y).1
          (Wing.rotate h.rotation x y).2).toNat := Nat.mod_eq_of_lt (by omega)
    have m2 : min color 255 % 256 = min color 255 := Nat.mod_eq_of_lt (by omega)
    rw [m1, m2]
  · intro h7
    unfold wingIndex
    rw [if_pos h7]
    refine ⟨rfl, ?_, ?_⟩ <;> omega
  · intro h7
    have h8 : ¬ (Wing.rotate h.rotation x y).1 ≤ 7 := by omega
    unfold wingIndex
    rw [if_neg h8]
    refine ⟨rfl, ?_, ?_⟩ <;> omega
  · intro hr hx hy
    subst hx hy
    refine ⟨?_, by decide⟩
    rw [Wing.drawPixel_accepted W K h 8 0 color s hc hx0 hx1 hy0 hy1]
    simp [hr, Wing.rotate, wingIndex]

theorem wing_fold_index_witness :
    (70000 % 65536 : Nat) < 65536 ∧
      Wing.rotate (Handle.mk 0x74 1 0).rotation 8 0 = (8, 0) ∧
      Wing.drawPixel ackWire sampleRegs (Handle.mk 0x74 1 0) 8 0 (70000 % 65536) []
        = (Handle.mk 0x74 1 0, [] ++ regWrite 0x74 0xFD 1 (0x24 + 120) 255) :=
  ⟨by decide, by decide,
    (wing_fold_index ackWire (fun _ => 0) (fun _ => 0) sampleRegs (Handle.mk 0x74 1 0) 8 0
      (70000 % 65536) [] [] (by decide) (by decide) (by decide) (by decide) (by decide)).2.1⟩

/-! ## Initialisation on the device-memory model -/

theorem begin_recorder_ack (st rx : List Call → Nat) (K : Regs) (h : Handle) (addr : Nat)
    (t : List Call) (hack : st (t ++ probeCalls (addr % 256)) = 0) :
    begin (recorder st rx) K h addr t
      = (true, { h with _i2caddr := addr % 256, _frame := 0 },
          t ++ probeCalls (addr % 256) ++ [Call.endTransmission]
            ++ configTrace (addr % 256) K) := by
  have hack2 : st (t ++ [Call.begin] ++ [Call.setClock 400000]
      ++ [Call.beginTransmission (addr % 256)]) = 0 := by
    simpa [probeCalls, List.append_assoc] using hack
  have p1 : (recorder st rx).begin t = t ++ [Call.begin] := rfl
  have p2 : ∀ u, (recorder st rx).setClock 400000 u = u ++ [Call.setClock 400000] := fun _ => rfl
  have p3 : ∀ a u, (recorder st rx).beginTransmission a u = u ++ [Call.beginTransmission a] :=
    fun _ _ => rfl
  have p4 : ∀ u, (recorder st rx).endTransmission u = (u ++ [Call.endTransmission], st u) :=
    fun _ => rfl
  have p5 : ∀ u, (recorder st rx).delay 10 u = u ++ [Call.delay 10] := fun _ => rfl
  simp only [begin, p1, p2, p3, p4, p5, hack2, ne_eq, not_true_eq_false, if_false,
    writeRegister8_recorder, displayFrame, audioSync, clear_recorder, enableAll_recorder,
    Bool.false_eq_true, configTrace]
  simp [probeCalls, List.append_assoc]

theorem writeRegister8_chip (K : Regs) (h : Handle) (bank reg data : Nat) (c : Chip) :
    writeRegister8 (chipWire (K.ISSI_COMMANDREGISTER % 256)) K h bank reg data c
      = (h, if reg % 256 = K.ISSI_COMMANDREGISTER % 256 then
              { c with bank := data % 256, buf := [] }
            else
              { c with
                  mem := fun b r =>
                    if b = bank % 256 ∧ r = reg % 256 then data % 256 else c.mem b r,
                  bank := bank % 256, ptr := reg % 256 + 1, buf := [] }) := by
  by_cases hr : reg % 256 = K.ISSI_COMMANDREGISTER % 256
  · simp [writeRegister8, selectBank_chip]
    simp [chipWire, Chip.commit, hr]
  · simp [writeRegister8, selectBank_chip]
    simp [chipWire, Chip.commit, hr, storeBytes]

theorem writeRegister8_chip_other (K : Regs) (h : Handle) (bank reg data : Nat) (c : Chip)
    (b r : Nat) (hne : ¬ (b = bank % 256 ∧ r = reg % 256)) :
    (writeRegister8 (chipWire (K.ISSI_COMMANDREGISTER % 256)) K h bank reg data c).2.mem b r
      = c.mem b r := by
  rw [writeRegister8_chip]
  split_ifs
  · rfl
  · simp [hne]

theorem writeRegister8_chip_cases (K : Regs) (h : Handle) (bank reg data : Nat) (c : Chip)
    (b r : Nat) :
    (writeRegister8 (chipWire (K.ISSI_COMMANDREGISTER % 256)) K h bank reg data c).2.mem b r
        = c.mem b r
      ∨ (writeRegister8 (chipWire (K.ISSI_COMMANDREGISTER % 256)) K h bank reg data c).2.mem b r
        = data % 256 := by
  rw [writeRegister8_chip]
  split_ifs
  · exact Or.inl rfl
  · by_cases hk : b = bank % 256 ∧ r = reg % 256
    · right; simp [hk]
    · left; simp [hk]

theorem writeRegister8_chip_at (K : Regs) (h : Handle) (bank reg data : Nat) (c : Chip)
    (hreg : reg % 256 ≠ K.ISSI_COMMANDREGISTER % 256) :
    (writeRegister8 (chipWire (K.ISSI_COMMANDREGISTER % 256)) K h bank reg data c).2.mem
        (bank % 256) (reg % 256) = data % 256 := by
  rw [writeRegister8_chip, if_neg hreg]
  simp

theorem foldl_mem_preserved {α : Type} (l : List α) (g : Handle × Chip → α → Handle × Chip)
    (b r : Nat) (hg : ∀ hs a, a ∈ l → (g hs a).2.mem b r = hs.2.mem b r) (hs : Handle × Chip) :
    (l.foldl g hs).2.mem b r = hs.2.mem b r := by
  induction l generalizing hs with
  | nil => rfl
  | cons a l ih =>
    rw [List.foldl_cons, ih (fun hs x hx => hg hs x (List.mem_cons_of_mem _ hx)),
      hg hs a (List.mem_cons_self _ _)]

theorem foldl_handle_preserved {α σ : Type} (l : List α) (g : Handle × σ → α → Handle × σ)
    (hg : ∀ hs a, (g hs a).1 = hs.1) (hs : Handle × σ) : (l.foldl g hs).1 = hs.1 := by
  induction l generalizing hs with
  | nil => rfl
  | cons a l ih => rw [List.foldl_cons, ih, hg]

theorem clear_handle {σ : Type} (W : TwoWire σ) (K : Regs) (h : Handle) (s : σ) :
    (clear W K h s).1 = h := rfl

theorem enableAll_handle {σ : Type} (W : TwoWire σ) (K : Regs) (h : Handle) (s : σ) :
    (enableAll W K h s).1 = h := by
  unfold enableAll
  rw [foldl_handle_preserved]
  intro hs f
  rw [foldl_handle_preserved]
  intro hs i
  rfl

theorem enableAll_chip_other (K : Regs) (h : Handle) (c : Chip) (b r : Nat) (hr : 0x12 ≤ r) :
    (enableAll (chipWire (K.ISSI_COMMANDREGISTER % 256)) K h c).2.mem b r = c.mem b r := by
  unfold enableAll
  rw [foldl_mem_preserved]
  intro hs f _
  rw [foldl_mem_preserved]
  intro hs i hi
  have hi2 : i < 0x12 := List.mem_range.mp hi
  have hi3 : i % 256 = i := Nat.mod_eq_of_lt (by omega)
  exact writeRegister8_chip_other K _ _ _ _ _ b r (by rw [hi3]; omega)

theorem begin_chip (K : Regs) (h : Handle) (addr : Nat) (c : Chip) :
    begin (chipWire (K.ISSI_COMMANDREGISTER % 256)) K h addr c
      = (true, { h with _i2caddr := addr % 256, _frame := 0 },
          (writeRegister8 (chipWire (K.ISSI_COMMANDREGISTER % 256)) K
            { h with _i2caddr := addr % 256, _frame := 0 }
            K.ISSI_BANK_FUNCTIONREG K.ISSI_REG_AUDIOSYNC 0
            (enableAll (chipWire (K.ISSI_COMMANDREGISTER % 256)) K
              { h with _i2caddr := addr % 256, _frame := 0 }
              (clear (chipWire (K.ISSI_COMMANDREGISTER % 256)) K
                { h with _i2caddr := addr % 256, _frame := 0 }
                (writeRegister8 (chipWire (K.ISSI_COMMANDREGISTER % 256)) K
                  { h with _i2caddr := addr % 256, _frame := 0 }
                  K.ISSI_BANK_FUNCTIONREG K.ISSI_REG_PICTUREFRAME 0
                  (writeRegister8 (chipWire (K.ISSI_COMMANDREGISTER % 256)) K
                    { h with _i2caddr := addr % 256, _frame := 0 }
                    K.ISSI_BANK_FUNCTIONREG K.ISSI_REG_CONFIG K.ISSI_REG_CONFIG_PICTUREMODE
                    (writeRegister8 (chipWire (K.ISSI_COMMANDREGISTER % 256)) K
                      { h with _i2caddr := addr % 256, _frame := 0 }
                      K.ISSI_BANK_FUNCTIONREG K.ISSI_REG_SHUTDOWN 1
                      (writeRegister8 (chipWire (K.ISSI_COMMANDREGISTER % 256)) K
                        { h with _i2caddr := addr % 256, _frame := 0 }
                        K.ISSI_BANK_FUNCTIONREG K.ISSI_REG_SHUTDOWN 0
                        { c with buf := [] }).2).2).2).2).2).2).2) := by
  have e0 : ∀ a, (chipWire (K.ISSI_COMMANDREGISTER % 256)).endTransmission
      ((chipWire (K.ISSI_COMMANDREGISTER % 256)).beginTransmission a
        ((chipWire (K.ISSI_COMMANDREGISTER % 256)).setClock 400000
          ((chipWire (K.ISSI_COMMANDREGISTER % 256)).begin c)))
      = ({ c with buf := [] }, 0) := by
    intro a
    simp [chipWire, Chip.commit]
  have e1 : ∀ u, (chipWire (K.ISSI_COMMANDREGISTER % 256)).delay 10 u = u := fun _ => rfl
  have e2 : (if (0 : Nat) % 256 > 7 then 0 else (0 : Nat) % 256) = 0 := by decide
  simp only [begin, e0, e1, e2, ne_eq, not_true_eq_false, if_false, writeRegister8_handle,
    displayFrame, audioSync, clear_handle, enableAll_handle, Bool.false_eq_true]

theorem readRegister8_chip_val (K : Regs) (h : Handle) (bank reg : Nat) (c : Chip)
    (hb : bank < 256) (hr : reg < 256) (hreg : reg ≠ K.ISSI_COMMANDREGISTER % 256) :
    (readRegister8 (chipWire (K.ISSI_COMMANDREGISTER % 256)) K h bank reg c).1
      = c.mem bank reg % 256 := by
  have e1 : reg % 256 = reg := Nat.mod_eq_of_lt hr
  have e2 : bank % 256 = bank := Nat.mod_eq_of_lt hb
  rw [readRegister8_chip K h bank reg c (by rw [e1]; exact hreg), e1, e2]

theorem clear_chip_mem (K : Regs) (h : Handle) (c : Chip) (b r : Nat)
    (hcmd : K.ISSI_COMMANDREGISTER % 256 < 0x24 ∨ 0xB3 < K.ISSI_COMMANDREGISTER % 256) :
    (clear (chipWire (K.ISSI_COMMANDREGISTER % 256)) K h c).2.mem b r
      = if b = h._frame % 256 ∧ 0x24 ≤ r ∧ r ≤ 0xB3 then 0 else c.mem b r := by
  rw [clear_chip K h c hcmd]

theorem begin_chip_kept (K : Regs) (h : Handle) (addr : Nat) (c : Chip) (b r : Nat)
    (hcmd : K.ISSI_COMMANDREGISTER % 256 < 0x24 ∨ 0xB3 < K.ISSI_COMMANDREGISTER % 256)
    (hfun : 8 ≤ K.ISSI_BANK_FUNCTIONREG % 256) (hb1 : 1 ≤ b) (hb : b < 8) (hr : 0x12 ≤ r) :
    (begin (chipWire (K.ISSI_COMMANDREGISTER % 256)) K h addr c).2.2.mem b r = c.mem b r := by
  have hne : ∀ reg : Nat, ¬ (b = K.ISSI_BANK_FUNCTIONREG % 256 ∧ r = reg % 256) := by
    intro reg hk
    omega
  have h0 : ¬ (b = 0 % 256 ∧ 0x24 ≤ r ∧ r ≤ 0xB3) := by omega
  rw [begin_chip]
  simp only []
  rw [writeRegister8_chip_other K _ _ _ _ _ b r (hne _), enableAll_chip_other K _ _ b r hr,
    clear_chip_mem K _ _ b r hcmd, if_neg h0,
    writeRegister8_chip_other K _ _ _ _ _ b r (hne _),
    writeRegister8_chip_other K _ _ _ _ _ b r (hne _),
    writeRegister8_chip_other K _ _ _ _ _ b r (hne _),
    writeRegister8_chip_other K _ _ _ _ _ b r (hne _)]

theorem begin_chip_pwm_zero (K : Regs) (h : Handle) (addr : Nat) (c : Chip) (i : Nat)
    (hcmd : K.ISSI_COMMANDREGISTER % 256 < 0x24 ∨ 0xB3 < K.ISSI_COMMANDREGISTER % 256)
    (hi : i < 144) :
    (begin (chipWire (K.ISSI_COMMANDREGISTER % 256)) K h addr c).2.2.mem 0 (0x24 + i) = 0 := by
  have h0 : (0 : Nat) = 0 % 256 ∧ 0x24 ≤ 0x24 + i ∧ 0x24 + i ≤ 0xB3 := by omega
  rw [begin_chip]
  simp only []
  rcases writeRegister8_chip_cases K { h with _i2caddr := addr % 256, _frame := 0 }
      K.ISSI_BANK_FUNCTIONREG K.ISSI_REG_AUDIOSYNC 0
      (enableAll (chipWire (K.ISSI_COMMANDREGISTER % 256)) K
        { h with _i2caddr := addr % 256, _frame := 0 }
        (clear (chipWire (K.ISSI_COMMANDREGISTER % 256)) K
          { h with _i2caddr := addr % 256, _frame := 0 }
          (writeRegister8 (chipWire (K.ISSI_COMMANDREGISTER % 256)) K
            { h with _i2caddr := addr % 256, _frame := 0 }
            K.ISSI_BANK_FUNCTIONREG K.ISSI_REG_PICTUREFRAME 0
            (writeRegister8 (chipWire (K.ISSI_COMMANDREGISTER % 256)) K
              { h with _i2caddr := addr % 256, _frame := 0 }
              K.ISSI_BANK_FUNCTIONREG K.ISSI_REG_CONFIG K.ISSI_REG_CONFIG_PICTUREMODE
              (writeRegister8 (chipWire (K.ISSI_COMMANDREGISTER % 256)) K
                { h with _i2caddr := addr % 256, _frame := 0 }
                K.ISSI_BANK_FUNCTIONREG K.ISSI_REG_SHUTDOWN 1
                (writeRegister8 (chipWire (K.ISSI_COMMANDREGISTER % 256)) K
                  { h with _i2caddr := addr % 256, _frame := 0 }
                  K.ISSI_BANK_FUNCTIONREG K.ISSI_REG_SHUTDOWN 0
                  { c with buf := [] }).2).2).2).2).2).2 0 (0x24 + i) with hk | hk
  · rw [hk, enableAll_chip_other K _ _ 0 (0x24 + i) (by omega), clear_chip_mem K _ _ _ _ hcmd,
      if_pos h0]
  · rw [hk]

/-- C11 as stated fails: on the device-memory model, after a successful
`begin` on a chip whose registers all hold `0xAA`, PWM register `0x24` of
bank 1 still reads `0xAA`, not 0: only the active frame 0 is cleared. -/
theorem begin_leaves_bank_one :
    (begin (chipWire (sampleRegs.ISSI_COMMANDREGISTER % 256)) sampleRegs (Handle.mk 0 0 0) 0x74
        dirtyChip).1 = true
      ∧ (readRegister8 (chipWire (sampleRegs.ISSI_COMMANDREGISTER % 256)) sampleRegs
          (begin (chipWire (sampleRegs.ISSI_COMMANDREGISTER % 256)) sampleRegs (Handle.mk 0 0 0)
            0x74 dirtyChip).2.1 1 0x24
          (begin (chipWire (sampleRegs.ISSI_COMMANDREGISTER % 256)) sampleRegs (Handle.mk 0 0 0)
            0x74 dirtyChip).2.2).1 = 0xAA
      ∧ (readRegister8 (chipWire (sampleRegs.ISSI_COMMANDREGISTER % 256)) sampleRegs
          (begin (chipWire (sampleRegs.ISSI_COMMANDREGISTER % 256)) sampleRegs (Handle.mk 0 0 0)
            0x74 dirtyChip).2.1 1 0x24
          (begin (chipWire (sampleRegs.ISSI_COMMANDREGISTER % 256)) sampleRegs (Handle.mk 0 0 0)
            0x74 dirtyChip).2.2).1 ≠ 0 := by
  have hread : (readRegister8 (chipWire (sampleRegs.ISSI_COMMANDREGISTER % 256)) sampleRegs
      (begin (chipWire (sampleRegs.ISSI_COMMANDREGISTER % 256)) sampleRegs (Handle.mk 0 0 0)
        0x74 dirtyChip).2.1 1 0x24
      (begin (chipWire (sampleRegs.ISSI_COMMANDREGISTER % 256)) sampleRegs (Handle.mk 0 0 0)
        0x74 dirtyChip).2.2).1 = 0xAA := by
    rw [readRegister8_chip_val sampleRegs _ 1 0x24 _ (by decide) (by decide) (by decide),
      begin_chip_kept sampleRegs (Handle.mk 0 0 0) 0x74 dirtyChip 1 0x24
        (by decide) (by decide) (by decide) (by decide) (by decide)]
    rfl
  refine ⟨by rw [begin_chip], hread, ?_⟩
  rw [hread]
  decide

/-- C11 (amended): after a successful `begin(addr)` the pixels of bank 0, the
active frame, are cleared: the emitted trace contains the batched clear of
bank 0, and on the device-memory model `begin` succeeds, every PWM register
`0x24 + i` (`i < 144`) of bank 0 reads 0 afterwards whatever the chip held
before, while the PWM registers of banks 1..7 keep their prior contents (the
command register lies outside the PWM range and the function-register bank is
not one of the picture banks). -/
theorem begin_clears_frame_zero (st rx : List Call → Nat) (K : Regs) (h : Handle) (addr : Nat)
    (t : List Call) (c : Chip) (hack : st (t ++ probeCalls (addr % 256)) = 0)
    (hcmd : K.ISSI_COMMANDREGISTER % 256 < 0x24 ∨ 0xB3 < K.ISSI_COMMANDREGISTER % 256)
    (hfun : 8 ≤ K.ISSI_BANK_FUNCTIONREG % 256) :
    (begin (recorder st rx) K h addr t).1 = true
      ∧ (∃ pre post, (begin (recorder st rx) K h addr t).2.2
          = t ++ pre ++ clearTrace (addr % 256) (K.ISSI_COMMANDREGISTER % 256) 0 ++ post)
      ∧ (begin (chipWire (K.ISSI_COMMANDREGISTER % 256)) K h addr c).1 = true
      ∧ (∀ i, i < 144 →
          (readRegister8 (chipWire (K.ISSI_COMMANDREGISTER % 256)) K
            (begin (chipWire (K.ISSI_COMMANDREGISTER % 256)) K h addr c).2.1 0 (0x24 + i)
            (begin (chipWire (K.ISSI_COMMANDREGISTER % 256)) K h addr c).2.2).1 = 0)
      ∧ (∀ b i, 1 ≤ b → b < 8 → i < 144 →
          (begin (chipWire (K.ISSI_COMMANDREGISTER % 256)) K h addr c).2.2.mem b (0x24 + i)
            = c.mem b (0x24 + i)) := by
  refine ⟨by rw [begin_recorder_ack st rx K h addr t hack], ?_, by rw [begin_chip], ?_, ?_⟩
  · refine ⟨probeCalls (addr % 256) ++ [Call.endTransmission]
        ++ (regWrite (addr % 256) (K.ISSI_COMMANDREGISTER % 256) (K.ISSI_BANK_FUNCTIONREG % 256)
            (K.ISSI_REG_SHUTDOWN % 256) 0x00
          ++ [Call.delay 10]
          ++ regWrite (addr % 256) (K.ISSI_COMMANDREGISTER % 256) (K.ISSI_BANK_FUNCTIONREG % 256)
            (K.ISSI_REG_SHUTDOWN % 256) 0x01
          ++ regWrite (addr % 256) (K.ISSI_COMMANDREGISTER % 256) (K.ISSI_BANK_FUNCTIONREG % 256)
            (K.ISSI_REG_CONFIG % 256) (K.ISSI_REG_CONFIG_PICTUREMODE % 256)
          ++ regWrite (addr % 256) (K.ISSI_COMMANDREGISTER % 256) (K.ISSI_BANK_FUNCTIONREG % 256)
            (K.ISSI_REG_PICTUREFRAME % 256) 0),
      enableTrace (addr % 256) (K.ISSI_COMMANDREGISTER % 256)
        ++ regWrite (addr % 256) (K.ISSI_COMMANDREGISTER % 256) (K.ISSI_BANK_FUNCTIONREG % 256)
          (K.ISSI_REG_AUDIOSYNC % 256) 0, ?_⟩
    rw [begin_recorder_ack st rx K h addr t hack]
    simp only [configTrace, List.append_assoc]
  · intro i hi
    rw [readRegister8_chip_val K _ 0 (0x24 + i) _ (by omega) (by omega) (by omega),
      begin_chip_pwm_zero K h addr c i hcmd hi]
  · intro b i hb1 hb hi
    exact begin_chip_kept K h addr c b (0x24 + i) hcmd hfun hb1 hb (by omega)

theorem begin_clears_frame_zero_witness :
    (fun _ : List Call => 0) ([] ++ probeCalls (0x74 % 256)) = 0
      ∧ (sampleRegs.ISSI_COMMANDREGISTER % 256 < 0x24
          ∨ 0xB3 < sampleRegs.ISSI_COMMANDREGISTER % 256)
      ∧ 8 ≤ sampleRegs.ISSI_BANK_FUNCTIONREG % 256
      ∧ (begin (chipWire (sampleRegs.ISSI_COMMANDREGISTER % 256)) sampleRegs (Handle.mk 0 5 0)
          0x74 dirtyChip).1 = true :=
  ⟨rfl, by decide, by decide,
    (begin_clears_frame_zero (fun _ => 0) (fun _ => 0) sampleRegs (Handle.mk 0 5 0) 0x74 []
      dirtyChip rfl (by decide) (by decide)).2.2.1⟩

/-! ## Register round trip on the loop-back device -/

theorem selectBank_loop (K : Regs) (h : Handle) (bank : Nat) (c : Chip) :
    selectBank (loopWire (K.ISSI_COMMANDREGISTER % 256)) K h bank c
      = (h, { c with
                mem := fun b r =>
                  if b = c.bank ∧ r = K.ISSI_COMMANDREGISTER % 256 then bank % 256
                  else c.mem b r,
                bank := bank % 256, ptr := K.ISSI_COMMANDREGISTER % 256 + 1, buf := [] }) := by
  simp [selectBank, loopWire, Chip.loopCommit, storeBytes]

theorem loopCommit_store (cmd reg v : Nat) (c : Chip) (hbuf : c.buf = [reg, v]) :
    (c.loopCommit cmd).mem c.bank reg = v := by
  unfold Chip.loopCommit
  rw [hbuf]
  by_cases hr : reg = cmd
  · simp [hr, storeBytes]
  · simp [hr, storeBytes]

theorem loopCommit_select (cmd b : Nat) (c : Chip) (hbuf : c.buf = [cmd, b]) :
    (c.loopCommit cmd).bank = b := by
  unfold Chip.loopCommit
  rw [hbuf]
  simp

theorem loopCommit_offset (cmd reg : Nat) (c : Chip) (hbuf : c.buf = [reg]) :
    (c.loopCommit cmd).ptr = reg ∧ (c.loopCommit cmd).mem = c.mem
      ∧ (c.loopCommit cmd).bank = c.bank := by
  unfold Chip.loopCommit
  rw [hbuf]
  by_cases hr : reg = cmd
  · simp [hr, storeBytes]
  · simp [hr, storeBytes]

/-- C13: on the loop-back device (a bank select through the command register
sets the current bank; a two-byte write stores the value at the register
offset of the current bank; a one-byte write followed by a one-byte read
returns the stored value), for every 8-bit `bank`, `reg` and `v` and every
initial device state, `writeRegister8(bank, reg, v)` followed by
`readRegister8(bank, reg)` returns `v`; the command register offset
included. -/
theorem write_then_read_loop (K : Regs) (h : Handle) (bank reg v : Nat) (c : Chip)
    (hb : bank < 256) (hr : reg < 256) (hv : v < 256) :
    (readRegister8 (loopWire (K.ISSI_COMMANDREGISTER % 256)) K
        (writeRegister8 (loopWire (K.ISSI_COMMANDREGISTER % 256)) K h bank reg v c).1 bank reg
        (writeRegister8 (loopWire (K.ISSI_COMMANDREGISTER % 256)) K h bank reg v c).2).1
      = v := by
  have e1 : reg % 256 = reg := Nat.mod_eq_of_lt hr
  have e2 : v % 256 = v := Nat.mod_eq_of_lt hv
  have e3 : bank % 256 = bank := Nat.mod_eq_of_lt hb
  have r1 : List.range 1 = [0] := by decide
  simp only [readRegister8, writeRegister8, selectBank_loop, e1, e2, e3, Nat.mod_mod]
  by_cases hreg : reg = K.ISSI_COMMANDREGISTER % 256
  · by_cases hvb : bank = v
    · simp [loopWire, Chip.loopCommit, storeBytes, r1, hreg, hvb, e2]
    · simp [loopWire, Chip.loopCommit, storeBytes, r1, hreg, hvb, e2]
  · simp [loopWire, Chip.loopCommit, storeBytes, r1, hreg, e2]

theorem write_then_read_loop_witness :
    (0 : Nat) < 256 ∧ (0xFD : Nat) < 256 ∧ (7 : Nat) < 256
      ∧ sampleRegs.ISSI_COMMANDREGISTER % 256 = 0xFD
      ∧ (readRegister8 (loopWire (sampleRegs.ISSI_COMMANDREGISTER % 256)) sampleRegs
          (writeRegister8 (loopWire (sampleRegs.ISSI_COMMANDREGISTER % 256)) sampleRegs
            (Handle.mk 0x74 0 0) 0 0xFD 7 dirtyChip).1 0 0xFD
          (writeRegister8 (loopWire (sampleRegs.ISSI_COMMANDREGISTER % 256)) sampleRegs
            (Handle.mk 0x74 0 0) 0 0xFD 7 dirtyChip).2).1 = 7 :=
  ⟨by decide, by decide, by decide, by decide,
    write_then_read_loop sampleRegs (Handle.mk 0x74 0 0) 0 0xFD 7 dirtyChip (by decide)
      (by decide) (by decide)⟩

/-! ## Out-of-range coordinates and the frame pointer -/

theorem rotate_inPhysical_iff (r : Nat) (x y : Int) (hx1 : -32768 ≤ x) (hx2 : x ≤ 32767)
    (hy1 : -32768 ≤ y) (hy2 : y ≤ 32767) :
    inPhysical (rotate r x y) ↔ inLogical r x y := by
  rcases r with _ | _ | _ | _ | n
  · simp [rotate, inPhysical, inLogical]
  · simp [rotate, inPhysical, inLogical, wrap16]
    omega
  · simp [rotate, inPhysical, inLogical, wrap16]
    omega
  · simp [rotate, inPhysical, inLogical, wrap16]
    omega
  · simp [rotate, inPhysical, inLogical]

theorem drawPixel_of_inPhysical {σ : Type} (W : TwoWire σ) (K : Regs) (h : Handle) (x y : Int)
    (color : Nat) (s : σ) (hp : inPhysical (rotate h.rotation x y)) :
    drawPixel W K h x y color s
      = writeRegister8 W K h h._frame
          (0x24 + ((rotate h.rotation x y).1 + 16 * (rotate h.rotation x y).2).toNat)
          (min (color % 65536) 255) s := by
  simp only [drawPixel]
  generalize rotate h.rotation x y = p at hp ⊢
  obtain ⟨u, v⟩ := p
  simp only [inPhysical] at hp
  obtain ⟨hu0, hu1, hv0, hv1⟩ := hp
  have e1 : ¬ (u < 0 ∨ 16 ≤ u) := by omega
  have e2 : ¬ (v < 0 ∨ 9 ≤ v) := by omega
  have hidx : toU8 (u + v * 16) = (u + 16 * v).toNat := by
    unfold toU8
    congr 1
    omega
  have hcol : (if color % 65536 > 255 then 255 else color % 65536) = min (color % 65536) 255 := by
    split_ifs <;> omega
  simp only [ge_iff_le, e1, e2, if_false, hidx, hcol]
  exact setLEDPWM_lt W K h _ _ _ s (by omega)

theorem drawPixel_of_not_inPhysical {σ : Type} (W : TwoWire σ) (K : Regs) (h : Handle)
    (x y : Int) (color : Nat) (s : σ) (hp : ¬ inPhysical (rotate h.rotation x y)) :
    drawPixel W K h x y color s = (h, s) := by
  simp only [drawPixel]
  generalize rotate h.rotation x y = p at hp ⊢
  obtain ⟨u, v⟩ := p
  simp only [inPhysical] at hp
  by_cases e1 : u < 0 ∨ 16 ≤ u
  · simp only [ge_iff_le, e1, if_true]
  · have e2 : v < 0 ∨ 9 ≤ v := by omega
    simp only [ge_iff_le, e1, e2, if_true, if_false]

/-- C12: for every rotation and every pair of int16 values `(x, y)` outside
the logical display area of that rotation (rotation arithmetic modulo
`2^16`), the generic `drawPixel` returns the handle and the transport state
untouched (no transport call, trace unchanged); for every coordinate inside
the logical area it appends one register write to the active frame. -/
theorem drawPixel_out_of_range {σ : Type} (W : TwoWire σ) (st rx : List Call → Nat) (K : Regs)
    (h : Handle) (x y : Int) (color : Nat) (s : σ) (t : List Call)
    (hx1 : -32768 ≤ x) (hx2 : x ≤ 32767) (hy1 : -32768 ≤ y) (hy2 : y ≤ 32767) :
    (¬ inLogical h.rotation x y →
        drawPixel W K h x y color s = (h, s)
          ∧ drawPixel (recorder st rx) K h x y color t = (h, t))
      ∧ (inLogical h.rotation x y →
        ∃ reg data, drawPixel (recorder st rx) K h x y color t
          = (h, t ++ regWrite h._i2caddr (K.ISSI_COMMANDREGISTER % 256) (h._frame % 256)
              reg data)) := by
  have hiff := rotate_inPhysical_iff h.rotation x y hx1 hx2 hy1 hy2
  constructor
  · intro hn
    have hp : ¬ inPhysical (rotate h.rotation x y) := fun hq => hn (hiff.mp hq)
    exact ⟨drawPixel_of_not_inPhysical W K h x y color s hp,
      drawPixel_of_not_inPhysical _ K h x y color t hp⟩
  · intro hl
    refine ⟨(0x24 + ((rotate h.rotation x y).1 + 16 * (rotate h.rotation x y).2).toNat) % 256,
      min (color % 65536) 255 % 256, ?_⟩
    rw [drawPixel_of_inPhysical _ K h x y color t (hiff.mpr hl), writeRegister8_recorder]

theorem drawPixel_out_of_range_witness :
    (-32768 : Int) ≤ -32768 ∧ (-32768 : Int) ≤ 32767 ∧ (-32768 : Int) ≤ 32767
      ∧ (32767 : Int) ≤ 32767 ∧ ¬ inLogical (Handle.mk 0x74 0 2).rotation (-32768) 32767
      ∧ drawPixel ackWire sampleRegs (Handle.mk 0x74 0 2) (-32768) 32767 9 []
        = (Handle.mk 0x74 0 2, []) :=
  ⟨by decide, by decide, by decide, by decide, by decide,
    ((drawPixel_out_of_range ackWire (fun _ => 0) (fun _ => 0) sampleRegs (Handle.mk 0x74 0 2)
      (-32768) 32767 9 [] [] (by decide) (by decide) (by decide) (by decide)).1
      (by decide)).2⟩

/-- C14: for every 8-bit `frame`, `setFrame(frame)` makes no transport call
(the transport state, hence the trace, is returned untouched), sets the
handle's active frame to `frame` and leaves bus address and rotation
unchanged; a following `clear` selects bank `frame`, and a following in-area
`drawPixel` writes to bank `frame`. -/
theorem setFrame_spec {σ : Type} (st rx : List Call → Nat) (K : Regs) (h : Handle)
    (frame : Nat) (s : σ) (t : List Call) (x y : Int) (color : Nat) (hf : frame < 256)
    (hx1 : -32768 ≤ x) (hx2 : x ≤ 32767) (hy1 : -32768 ≤ y) (hy2 : y ≤ 32767)
    (hxy : inLogical h.rotation x y) :
    setFrame h frame s = ({ h with _frame := frame }, s)
      ∧ (setFrame h frame t).2 = t
      ∧ (setFrame h frame s).1._frame = frame
      ∧ (setFrame h frame s).1._i2caddr = h._i2caddr
      ∧ (setFrame h frame s).1.rotation = h.rotation
      ∧ clear (recorder st rx) K (setFrame h frame t).1 (setFrame h frame t).2
        = ((setFrame h frame t).1,
            t ++ clearTrace h._i2caddr (K.ISSI_COMMANDREGISTER % 256) frame)
      ∧ (∃ reg data,
          drawPixel (recorder st rx) K (setFrame h frame t).1 x y color (setFrame h frame t).2
            = ((setFrame h frame t).1,
                t ++ regWrite h._i2caddr (K.ISSI_COMMANDREGISTER % 256) frame reg data)) := by
  have e : frame % 256 = frame := Nat.mod_eq_of_lt hf
  have hs : ∀ {τ : Type} (z : τ), setFrame h frame z = ({ h with _frame := frame }, z) := by
    intro τ z
    simp only [setFrame, e]
  refine ⟨hs s, by rw [hs], by rw [hs], by rw [hs], by rw [hs], ?_, ?_⟩
  · rw [hs, clear_recorder]
    simp only [e]
  · have hiff := rotate_inPhysical_iff h.rotation x y hx1 hx2 hy1 hy2
    refine ⟨(0x24 + ((rotate h.rotation x y).1 + 16 * (rotate h.rotation x y).2).toNat) % 256,
      min (color % 65536) 255 % 256, ?_⟩
    have hd := drawPixel_of_inPhysical (recorder st rx) K { h with _frame := frame } x y color t
      (hiff.mpr hxy)
    rw [writeRegister8_recorder] at hd
    simpa only [hs, e] using hd

theorem setFrame_spec_witness :
    (5 : Nat) < 256 ∧ inLogical (Handle.mk 0x74 0 0).rotation 1 1
      ∧ setFrame (Handle.mk 0x74 0 0) 5 ([] : List Call) = (Handle.mk 0x74 5 0, [])
      ∧ clear ackWire sampleRegs (setFrame (Handle.mk 0x74 0 0) 5 ([] : List Call)).1
          (setFrame (Handle.mk 0x74 0 0) 5 ([] : List Call)).2
        = ((setFrame (Handle.mk 0x74 0 0) 5 ([] : List Call)).1,
            [] ++ clearTrace 0x74 0xFD 5) :=
  ⟨by decide, by decide,
    (setFrame_spec (fun _ => 0) (fun _ => 0) sampleRegs (Handle.mk 0x74 0 0) 5
      ([] : List Call) [] 1 1 9 (by decide) (by decide) (by decide) (by decide) (by decide)
      (by decide)).1,
    (setFrame_spec (fun _ => 0) (fun _ => 0) sampleRegs (Handle.mk 0x74 0 0) 5
      ([] : List Call) [] 1 1 9 (by decide) (by decide) (by decide) (by decide) (by decide)
      (by decide)).2.2.2.2.2.1⟩

theorem setLEDPWM_handle {σ : Type} (W : TwoWire σ) (K : Regs) (h : Handle)
    (lednum pwm bank : Nat) (s : σ) : (setLEDPWM W K h lednum pwm bank s).1 = h := by
  unfold setLEDPWM
  simp only []
  split_ifs
  · rfl
  · exact writeRegister8_handle W K h _ _ _ s

theorem displayFrame_handle {σ : Type} (W : TwoWire σ) (K : Regs) (h : Handle) (frame : Nat)
    (s : σ) : (displayFrame W K h frame s).1 = h := rfl

theorem audioSync_handle {σ : Type} (W : TwoWire σ) (K : Regs) (h : Handle) (sync : Bool)
    (s : σ) : (audioSync W K h sync s).1 = h := by
  cases sync <;> rfl

theorem drawPixel_handle {σ : Type} (W : TwoWire σ) (K : Regs) (h : Handle) (x y : Int)
    (color : Nat) (s : σ) : (drawPixel W K h x y color s).1 = h := by
  simp only [drawPixel]
  split_ifs <;> first | rfl | exact setLEDPWM_handle W K h _ _ _ s

theorem wing_drawPixel_handle {σ : Type} (W : TwoWire σ) (K : Regs) (h : Handle) (x y : Int)
    (color : Nat) (s : σ) : (Wing.drawPixel W K h x y color s).1 = h := by
  simp only [Wing.drawPixel]
  split_ifs <;> first | rfl | exact setLEDPWM_handle W K h _ _ _ s

theorem begin_handle {σ : Type} (W : TwoWire σ) (K : Regs) (h : Handle) (addr : Nat) (s : σ) :
    (begin W K h addr s).2.1 = { h with _i2caddr := addr % 256, _frame := 0 } := by
  simp only [begin]
  split_ifs
  · rfl
  · simp only [audioSync_handle, enableAll_handle, clear_handle, displayFrame_handle,
      writeRegister8_handle]

/-- C15 as stated fails: from the handle left by `begin` (active frame 0),
`setFrame(200)` makes the active frame 200, outside `0..7`, and the next
`drawPixel` selects bank 200. -/
theorem setFrame_breaks_frame_range :
    (Handle.mk 0x74 0 0)._frame ≤ 7
      ∧ (setFrame (Handle.mk 0x74 0 0) 200 ([] : List Call)).1._frame = 200
      ∧ ¬ (setFrame (Handle.mk 0x74 0 0) 200 ([] : List Call)).1._frame ≤ 7
      ∧ drawPixel ackWire sampleRegs (setFrame (Handle.mk 0x74 0 0) 200 ([] : List Call)).1 0 0 9
          (setFrame (Handle.mk 0x74 0 0) 200 ([] : List Call)).2
        = (Handle.mk 0x74 200 0, regWrite 0x74 0xFD 200 0x24 9) := by
  decide

/-- C15 (amended): the handle's active frame is 0, hence within `0..7`, after
`begin`, and a frame within `0..7` is preserved by `displayFrame`, `clear`,
`drawPixel` (both layouts), `setLEDPWM` and `audioSync` called with arbitrary
arguments, which return the handle unchanged, and by `setFrame(frame)` when
`frame <= 7`. -/
theorem frame_range_preserved {σ : Type} (W : TwoWire σ) (K : Regs) (h : Handle)
    (addr frame lednum pwm bank color : Nat) (x y : Int) (sync : Bool) (s : σ)
    (hfr : h._frame ≤ 7) :
    (begin W K h addr s).2.1._frame ≤ 7
      ∧ (displayFrame W K h frame s).1._frame ≤ 7
      ∧ (clear W K h s).1._frame ≤ 7
      ∧ (drawPixel W K h x y color s).1._frame ≤ 7
      ∧ (Wing.drawPixel W K h x y color s).1._frame ≤ 7
      ∧ (setLEDPWM W K h lednum pwm bank s).1._frame ≤ 7
      ∧ (audioSync W K h sync s).1._frame ≤ 7
      ∧ (frame ≤ 7 → (setFrame h frame s).1._frame ≤ 7) := by
  refine ⟨?_, ?_, ?_, ?_, ?_, ?_, ?_, ?_⟩
  · rw [begin_handle]
    exact Nat.zero_le 7
  · rw [displayFrame_handle]; exact hfr
  · rw [clear_handle]; exact hfr
  · rw [drawPixel_handle]; exact hfr
  · rw [wing_drawPixel_handle]; exact hfr
  · rw [setLEDPWM_handle]; exact hfr
  · rw [audioSync_handle]; exact hfr
  · intro hf
    have e : frame % 256 = frame := Nat.mod_eq_of_lt (by omega)
    simp only [setFrame, e]
    exact hf

theorem frame_range_preserved_witness :
    (Handle.mk 0x74 3 0)._frame ≤ 7
      ∧ (begin ackWire sampleRegs (Handle.mk 0x74 3 0) 0x74 []).2.1._frame ≤ 7
      ∧ (setFrame (Handle.mk 0x74 3 0) 7 ([] : List Call)).1._frame ≤ 7 :=
  ⟨by decide,
    (frame_range_preserved ackWire sampleRegs (Handle.mk 0x74 3 0) 0x74 7 0 0 0 0 0 0 false []
      (by decide)).1,
    (frame_range_preserved ackWire sampleRegs (Handle.mk 0x74 3 0) 0x74 7 0 0 0 0 0 0 false []
      (by decide)).2.2.2.2.2.2.2 (by decide)⟩

/-! ## Register accesses and their bank selects -/

theorem scan_append (cmd : Nat) (st : Scan) (t u : List Call) :
    scan cmd st (t ++ u) = scan cmd (scan cmd st t) u := by
  simp only [scan, List.foldl_append]

theorem scan_bankSelect (cmd a b : Nat) (st : Scan) :
    scan cmd st (bankSelect a cmd b) = { st with cur := none, bank := some b, fresh := true } := by
  simp [scan, bankSelect, scanStep]

theorem scan_pair (cmd a reg d : Nat) (st : Scan) (hreg : reg ≠ cmd) :
    scan cmd st [Call.beginTransmission a, Call.write reg, Call.write d, Call.endTransmission]
      = { st with cur := none, fresh := false,
                  log := st.log ++ [⟨st.bank, st.fresh, [reg, d]⟩] } := by
  simp [scan, scanStep, hreg]

theorem scan_regWrite (cmd a b reg d : Nat) (st : Scan) (hreg : reg ≠ cmd) :
    scan cmd st (regWrite a cmd b reg d)
      = { cur := none, bank := some b, fresh := false,
          log := st.log ++ [⟨some b, true, [reg, d]⟩] } := by
  rw [regWrite, scan_append, scan_bankSelect, scan_pair _ _ _ _ _ hreg]

theorem scan_regWrite_cmd (cmd a b d : Nat) (st : Scan) :
    scan cmd st (regWrite a cmd b cmd d)
      = { cur := none, bank := some d, fresh := true, log := st.log } := by
  rw [regWrite, scan_append, scan_bankSelect]
  simp [scan, scanStep]

theorem regWrite_log_selected (cmd a b reg d : Nat) (x : Access)
    (hx : x ∈ accessLog cmd (regWrite a cmd b reg d)) : x.fresh = true ∧ x.bank = some b := by
  unfold accessLog at hx
  by_cases hreg : reg = cmd
  · subst hreg
    rw [scan_regWrite_cmd] at hx
    simp at hx
  · rw [scan_regWrite _ _ _ _ _ _ hreg] at hx
    simp at hx
    subst hx
    exact ⟨rfl, rfl⟩

theorem scan_writes (cmd : Nat) (n v : Nat) (st : Scan) (l : List Nat) (hc : st.cur = some l) :
    scan cmd st (List.replicate n (Call.write v))
      = { st with cur := some (l ++ List.replicate n v) } := by
  induction n generalizing st l with
  | zero =>
    cases st
    simp at hc
    simp [scan, hc]
  | succ n ih =>
    rw [List.replicate_succ, show (Call.write v :: List.replicate n (Call.write v))
      = [Call.write v] ++ List.replicate n (Call.write v) from rfl, scan_append,
      ih (scan cmd st [Call.write v]) (l ++ [v]) (by simp [scan, scanStep, hc])]
    simp [scan, scanStep, hc, List.replicate_succ]

theorem scan_chunk (cmd a r : Nat) (st : Scan) (hr : r ≠ cmd) :
    scan cmd st ([Call.beginTransmission a, Call.write r] ++ List.replicate 24 (Call.write 0)
        ++ [Call.endTransmission])
      = { st with cur := none, fresh := false,
                  log := st.log ++ [⟨st.bank, st.fresh, r :: List.replicate 24 0⟩] } := by
  rw [scan_append, scan_append,
    scan_writes cmd 24 0 (scan cmd st [Call.beginTransmission a, Call.write r]) [r]
      (by simp [scan, scanStep])]
  simp [scan, scanStep, hr]

theorem scan_clearTrace (cmd a f : Nat) (st : Scan) (hcmd : cmd < 0x24 ∨ 0xB3 < cmd) :
    scan cmd st (clearTrace a cmd f)
      = { cur := none, bank := some f, fresh := false, log := st.log ++ clearLog f } := by
  have r6 : List.range 6 = [0, 1, 2, 3, 4, 5] := by decide
  simp only [clearTrace, clearLog, r6, List.flatMap_cons, List.flatMap_nil, List.append_nil,
    List.map_cons, List.map_nil]
  rw [scan_append, scan_bankSelect, scan_append, scan_chunk _ _ _ _ (by omega),
    scan_append, scan_chunk _ _ _ _ (by omega), scan_append, scan_chunk _ _ _ _ (by omega),
    scan_append, scan_chunk _ _ _ _ (by omega), scan_append, scan_chunk _ _ _ _ (by omega),
    scan_chunk _ _ _ _ (by omega)]
  simp

theorem scan_regWrites_log (cmd a f d : Nat) (l : List Nat) (st : Scan)
    (hl : ∀ i ∈ l, i ≠ cmd) :
    (scan cmd st (l.flatMap (fun i => regWrite a cmd f i d))).log
      = st.log ++ l.map (fun i => ⟨some f, true, [i, d]⟩) := by
  induction l generalizing st with
  | nil => simp [scan]
  | cons i l ih =>
    rw [List.flatMap_cons, scan_append, ih _ (fun j hj => hl j (List.mem_cons_of_mem _ hj)),
      scan_regWrite _ _ _ _ _ _ (hl i (List.mem_cons_self _ _))]
    simp

theorem scan_enableTrace_log (cmd a : Nat) (st : Scan) (hcmd : 0x12 ≤ cmd) :
    (scan cmd st (enableTrace a cmd)).log = st.log ++ enableLog := by
  have key : ∀ (L : List Nat) (st : Scan),
      (scan cmd st (L.flatMap (fun f => (List.range 18).flatMap
          (fun i => regWrite a cmd f i 0xFF)))).log
        = st.log ++ L.flatMap (fun f => (List.range 18).map
            (fun i => ⟨some f, true, [i, 0xFF]⟩)) := by
    intro L
    induction L with
    | nil => intro st; simp [scan]
    | cons f L ih =>
      intro st
      rw [List.flatMap_cons, scan_append, ih, scan_regWrites_log cmd a f 0xFF _ st
        (fun i hi => by have := List.mem_range.mp hi; omega)]
      simp
  exact key (List.range 8) st

theorem accessLog_configTrace (a : Nat) (K : Regs) (hsep : K.separated) :
    accessLog (K.ISSI_COMMANDREGISTER % 256)
        (probeCalls a ++ [Call.endTransmission] ++ configTrace a K)
      = configLog K := by
  obtain ⟨hc, _, h1, h2, h3, h4⟩ := hsep
  have p0 : scan (K.ISSI_COMMANDREGISTER % 256) ⟨none, none, false, []⟩
      (probeCalls a ++ [Call.endTransmission]) = ⟨none, none, false, []⟩ := by
    simp [scan, scanStep, probeCalls]
  have pd : ∀ st : Scan, scan (K.ISSI_COMMANDREGISTER % 256) st [Call.delay 10] = st := by
    intro st
    simp [scan, scanStep]
  unfold accessLog configTrace
  rw [scan_append, p0, scan_append, scan_regWrite _ _ _ _ _ _ (by omega)]
  simp only []
  rw [scan_append, scan_enableTrace_log _ _ _ (by omega)]
  rw [scan_append, scan_append, scan_append, scan_append, scan_append,
    scan_regWrite _ _ _ _ _ _ (by omega), pd, scan_regWrite _ _ _ _ _ _ (by omega),
    scan_regWrite _ _ _ _ _ _ (by omega), scan_regWrite _ _ _ _ _ _ (by omega),
    scan_clearTrace _ _ _ _ (Or.inr hc)]
  simp [configLog]

theorem readRegister8_recorder (st rx : List Call → Nat) (K : Regs) (h : Handle)
    (bank reg : Nat) (t : List Call) :
    (readRegister8 (recorder st rx) K h bank reg t).2
      = (h, t ++ (bankSelect h._i2caddr (K.ISSI_COMMANDREGISTER % 256) (bank % 256)
          ++ [Call.beginTransmission h._i2caddr, Call.write (reg % 256), Call.endTransmission,
              Call.requestFrom h._i2caddr 1, Call.read])) := by
  simp [readRegister8, selectBank, recorder, bankSelect]

theorem setLEDPWM_recorder_cases (st rx : List Call → Nat) (K : Regs) (h : Handle)
    (lednum pwm bank : Nat) (t : List Call) :
    setLEDPWM (recorder st rx) K h lednum pwm bank t = (h, t)
      ∨ ∃ reg data, setLEDPWM (recorder st rx) K h lednum pwm bank t
          = (h, t ++ regWrite h._i2caddr (K.ISSI_COMMANDREGISTER % 256) (bank % 256) reg data) := by
  by_cases hl : lednum % 256 ≥ 144
  · left
    simp [setLEDPWM, hl]
  · right
    refine ⟨(0x24 + lednum % 256) % 256, pwm % 256 % 256, ?_⟩
    simp only [setLEDPWM, hl, if_false, writeRegister8_recorder, Nat.mod_mod]

theorem drawPixel_recorder_cases (st rx : List Call → Nat) (K : Regs) (h : Handle) (x y : Int)
    (color : Nat) (t : List Call) :
    drawPixel (recorder st rx) K h x y color t = (h, t)
      ∨ ∃ reg data, drawPixel (recorder st rx) K h x y color t
          = (h, t ++ regWrite h._i2caddr (K.ISSI_COMMANDREGISTER % 256) (h._frame % 256)
              reg data) := by
  simp only [drawPixel]
  split_ifs <;> first | exact Or.inl rfl | exact setLEDPWM_recorder_cases st rx K h _ _ _ t

theorem wing_drawPixel_recorder_cases (st rx : List Call → Nat) (K : Regs) (h : Handle)
    (x y : Int) (color : Nat) (t : List Call) :
    Wing.drawPixel (recorder st rx) K h x y color t = (h, t)
      ∨ ∃ reg data, Wing.drawPixel (recorder st rx) K h x y color t
          = (h, t ++ regWrite h._i2caddr (K.ISSI_COMMANDREGISTER % 256) (h._frame % 256)
              reg data) := by
  simp only [Wing.drawPixel]
  split_ifs <;> first | exact Or.inl rfl | exact setLEDPWM_recorder_cases st rx K h _ _ _ t

theorem selected_of_cases (cmd a b : Nat) (h : Handle) (r : Handle × List Call)
    (hr : r = (h, []) ∨ ∃ reg data, r = (h, [] ++ regWrite a cmd b reg data)) (x : Access)
    (hx : x ∈ accessLog cmd r.2) : x.fresh = true ∧ x.bank = some b := by
  rcases hr with hr | ⟨reg, data, hr⟩
  · subst hr
    simp [accessLog, scan] at hx
  · subst hr
    simp only [List.nil_append] at hx
    exact regWrite_log_selected cmd a b reg data x hx

theorem clear_accessLog (st rx : List Call → Nat) (K : Regs) (h : Handle)
    (hcmd : K.ISSI_COMMANDREGISTER % 256 < 0x24 ∨ 0xB3 < K.ISSI_COMMANDREGISTER % 256) :
    accessLog (K.ISSI_COMMANDREGISTER % 256) (clear (recorder st rx) K h []).2
      = clearLog (h._frame % 256) := by
  rw [clear_recorder]
  simp only [List.nil_append]
  unfold accessLog
  rw [scan_clearTrace _ _ _ _ hcmd]
  simp

/-- C16 as stated fails for `clear`: its second bulk PWM write (offset
`0x3C`) is a register access whose immediately preceding transaction is the
first bulk write, not a bank select. -/
theorem clear_bulk_not_fresh :
    (⟨some 0, false, 0x3C :: List.replicate 24 0⟩ : Access)
        ∈ accessLog (sampleRegs.ISSI_COMMANDREGISTER % 256)
            (clear (recorder (fun _ => 0) (fun _ => 0)) sampleRegs (Handle.mk 0x74 0 0) []).2
      ∧ ¬ (∀ x ∈ accessLog (sampleRegs.ISSI_COMMANDREGISTER % 256)
            (clear (recorder (fun _ => 0) (fun _ => 0)) sampleRegs (Handle.mk 0x74 0 0) []).2,
          x.fresh = true) := by
  rw [clear_accessLog (fun _ => 0) (fun _ => 0) sampleRegs (Handle.mk 0x74 0 0) (by decide)]
  have hm : (⟨some 0, false, 0x3C :: List.replicate 24 0⟩ : Access)
      ∈ clearLog ((Handle.mk 0x74 0 0)._frame % 256) := by decide
  exact ⟨hm, fun hall => Bool.noConfusion (hall _ hm)⟩

/-- C16 (amended): in the trace of every operation, every register access is
made under a bank select naming the bank the access is meant for, with no
other bank select in between. For `writeRegister8`, `readRegister8`,
`setLEDPWM`, `drawPixel` (both layouts), `displayFrame` and `audioSync` that
bank select is the transaction immediately before the access. `clear` selects
the active frame once and then issues its six bulk writes, so only the first
follows the select immediately; the same holds for the clear inside `begin`,
whose other accesses each follow their select immediately. -/
theorem accesses_bank_selected (st rx : List Call → Nat) (K : Regs) (h : Handle)
    (bank reg data lednum pwm frame addr color : Nat) (x y : Int) (sync : Bool)
    (hsep : K.separated) (hack : st ([] ++ probeCalls (addr % 256)) = 0) :
    (∀ a ∈ accessLog (K.ISSI_COMMANDREGISTER % 256)
          (writeRegister8 (recorder st rx) K h bank reg data []).2,
        a.fresh = true ∧ a.bank = some (bank % 256))
      ∧ accessLog (K.ISSI_COMMANDREGISTER % 256) (readRegister8 (recorder st rx) K h bank reg []).2.2
        = [⟨some (bank % 256), true, [reg % 256]⟩]
      ∧ (∀ a ∈ accessLog (K.ISSI_COMMANDREGISTER % 256)
            (setLEDPWM (recorder st rx) K h lednum pwm bank []).2,
          a.fresh = true ∧ a.bank = some (bank % 256))
      ∧ (∀ a ∈ accessLog (K.ISSI_COMMANDREGISTER % 256)
            (drawPixel (recorder st rx) K h x y color []).2,
          a.fresh = true ∧ a.bank = some (h._frame % 256))
      ∧ (∀ a ∈ accessLog (K.ISSI_COMMANDREGISTER % 256)
            (Wing.drawPixel (recorder st rx) K h x y color []).2,
          a.fresh = true ∧ a.bank = some (h._frame % 256))
      ∧ (∀ a ∈ accessLog (K.ISSI_COMMANDREGISTER % 256)
            (displayFrame (recorder st rx) K h frame []).2,
          a.fresh = true ∧ a.bank = some (K.ISSI_BANK_FUNCTIONREG % 256))
      ∧ (∀ a ∈ accessLog (K.ISSI_COMMANDREGISTER % 256)
            (audioSync (recorder st rx) K h sync []).2,
          a.fresh = true ∧ a.bank = some (K.ISSI_BANK_FUNCTIONREG % 256))
      ∧ accessLog (K.ISSI_COMMANDREGISTER % 256) (clear (recorder st rx) K h []).2
        = clearLog (h._frame % 256)
      ∧ accessLog (K.ISSI_COMMANDREGISTER % 256) (begin (recorder st rx) K h addr []).2.2
        = configLog K := by
  have hw : ∀ (b r d : Nat), ∀ a ∈ accessLog (K.ISSI_COMMANDREGISTER % 256)
      (writeRegister8 (recorder st rx) K h b r d []).2,
      a.fresh = true ∧ a.bank = some (b % 256) := by
    intro b r d a ha
    exact selected_of_cases _ h._i2caddr _ h _
      (Or.inr ⟨r % 256, d % 256, writeRegister8_recorder st rx K h b r d []⟩) a ha
  refine ⟨hw bank reg data, ?_, ?_, ?_, ?_, ?_, ?_, ?_, ?_⟩
  · rw [readRegister8_recorder]
    simp only [List.nil_append]
    unfold accessLog
    rw [scan_append, scan_bankSelect]
    simp [scan, scanStep]
  · intro a ha
    exact selected_of_cases _ h._i2caddr _ h _
      (by simpa only [List.nil_append] using setLEDPWM_recorder_cases st rx K h lednum pwm bank [])
      a ha
  · intro a ha
    exact selected_of_cases _ h._i2caddr _ h _
      (by simpa only [List.nil_append] using drawPixel_recorder_cases st rx K h x y color [])
      a ha
  · intro a ha
    exact selected_of_cases _ h._i2caddr _ h _
      (by simpa only [List.nil_append] using wing_drawPixel_recorder_cases st rx K h x y color [])
      a ha
  · intro a ha
    simp only [displayFrame] at ha
    exact hw _ _ _ a ha
  · intro a ha
    cases sync
    · simp only [audioSync, Bool.false_eq_true, if_false] at ha
      exact hw _ _ _ a ha
    · simp only [audioSync, if_true] at ha
      exact hw _ _ _ a ha
  · exact clear_accessLog st rx K h (Or.inr hsep.1)
  · rw [begin_recorder_ack st rx K h addr [] hack]
    simp only [List.nil_append]
    exact accessLog_configTrace (addr % 256) K hsep

theorem accesses_bank_selected_witness :
    sampleRegs.separated ∧ (fun _ : List Call => 0) ([] ++ probeCalls (0x74 % 256)) = 0
      ∧ accessLog (sampleRegs.ISSI_COMMANDREGISTER % 256)
          (readRegister8 (recorder (fun _ => 0) (fun _ => 0)) sampleRegs (Handle.mk 0x74 0 0)
            3 0x30 []).2.2
        = [⟨some (3 % 256), true, [0x30 % 256]⟩]
      ∧ accessLog (sampleRegs.ISSI_COMMANDREGISTER % 256)
          (clear (recorder (fun _ => 0) (fun _ => 0)) sampleRegs (Handle.mk 0x74 0 0) []).2
        = clearLog ((Handle.mk 0x74 0 0)._frame % 256) :=
  ⟨by decide, rfl,
    (accesses_bank_selected (fun _ => 0) (fun _ => 0) sampleRegs (Handle.mk 0x74 0 0)
      3 0x30 0 0 0 0 0x74 0 0 0 false (by decide) rfl).2.1,
    (accesses_bank_selected (fun _ => 0) (fun _ => 0) sampleRegs (Handle.mk 0x74 0 0)
      3 0x30 0 0 0 0 0x74 0 0 0 false (by decide) rfl).2.2.2.2.2.2.2.1⟩

/-! ## LED enable registers -/

theorem foldl_writeRegister8_chip_at (K : Regs) (f d : Nat) (l : List Nat)
    (hl : ∀ i ∈ l, i < 256 ∧ i ≠ K.ISSI_COMMANDREGISTER % 256)
    (hs : Handle × Chip) (i : Nat) (hi : i ∈ l) :
    (l.foldl (fun hs i => writeRegister8 (chipWire (K.ISSI_COMMANDREGISTER % 256)) K hs.1 f i d
        hs.2) hs).2.mem (f % 256) i = d % 256 := by
  induction l generalizing hs with
  | nil => cases hi
  | cons a l ih =>
    rw [List.foldl_cons]
    by_cases hil : i ∈ l
    · exact ih (fun j hj => hl j (List.mem_cons_of_mem _ hj)) _ hil
    · have hia : i = a := by
        rcases List.mem_cons.mp hi with h1 | h1
        · exact h1
        · exact absurd h1 hil
      subst hia
      have hi1 := hl i (List.mem_cons_self _ _)
      have ei : i % 256 = i := Nat.mod_eq_of_lt hi1.1
      rw [foldl_mem_preserved]
      · have hat := writeRegister8_chip_at K hs.1 f i d hs.2 (by rw [ei]; exact hi1.2)
        rw [ei] at hat
        exact hat
      · intro hs2 j hj
        have hj1 := hl j (List.mem_cons_of_mem _ hj)
        have ej : j % 256 = j := Nat.mod_eq_of_lt hj1.1
        apply writeRegister8_chip_other
        rw [ej]
        intro hk
        exact hil (hk.2 ▸ hj)

theorem foldl_banks_chip_at (K : Regs) (d : Nat) (L l : List Nat)
    (hL : ∀ f ∈ L, f < 256) (hl : ∀ i ∈ l, i < 256 ∧ i ≠ K.ISSI_COMMANDREGISTER % 256)
    (hs : Handle × Chip) (f i : Nat) (hf : f ∈ L) (hi : i ∈ l) :
    (L.foldl (fun hs f => l.foldl (fun hs i => writeRegister8
        (chipWire (K.ISSI_COMMANDREGISTER % 256)) K hs.1 f i d hs.2) hs) hs).2.mem f i
      = d % 256 := by
  induction L generalizing hs with
  | nil => cases hf
  | cons a L ih =>
    rw [List.foldl_cons]
    by_cases hfL : f ∈ L
    · exact ih (fun g hg => hL g (List.mem_cons_of_mem _ hg)) _ hfL
    · have hfa : f = a := by
        rcases List.mem_cons.mp hf with h1 | h1
        · exact h1
        · exact absurd h1 hfL
      subst hfa
      have ef : f % 256 = f := Nat.mod_eq_of_lt (hL f (List.mem_cons_self _ _))
      rw [foldl_mem_preserved]
      · have hat := foldl_writeRegister8_chip_at K f d l hl hs i hi
        rw [ef] at hat
        exact hat
      · intro hs2 g hg
        have eg : g % 256 = g := Nat.mod_eq_of_lt (hL g (List.mem_cons_of_mem _ hg))
        rw [foldl_mem_preserved]
        intro hs3 j _
        apply writeRegister8_chip_other
        rw [eg]
        intro hk
        exact hfL (hk.1 ▸ hg)

theorem enableAll_chip_at (K : Regs) (h : Handle) (c : Chip) (f i : Nat)
    (hcmd : 0x12 ≤ K.ISSI_COMMANDREGISTER % 256) (hf : f < 8) (hi : i < 0x12) :
    (enableAll (chipWire (K.ISSI_COMMANDREGISTER % 256)) K h c).2.mem f i = 0xFF := by
  unfold enableAll
  rw [foldl_banks_chip_at K 0xff (List.range 8) (List.range 0x12)
    (fun g hg => by have := List.mem_range.mp hg; omega)
    (fun j hj => by have := List.mem_range.mp hj; omega) (h, c) f i
    (List.mem_range.mpr hf) (List.mem_range.mpr hi)]

theorem begin_chip_enabled (K : Regs) (h : Handle) (addr : Nat) (c : Chip) (f i : Nat)
    (hsep : K.separated) (hf : f < 8) (hi : i < 0x12) :
    (begin (chipWire (K.ISSI_COMMANDREGISTER % 256)) K h addr c).2.2.mem f i = 0xFF := by
  obtain ⟨hc, hfun, _⟩ := hsep
  rw [begin_chip]
  simp only []
  rw [writeRegister8_chip_other K _ _ _ _ _ f i (by omega),
    enableAll_chip_at K _ _ f i (by omega) hf hi]

theorem flatMap_split {α β : Type} (g : α → List β) (l : List α) (a : α) (ha : a ∈ l) :
    ∃ u v, l.flatMap g = u ++ g a ++ v := by
  obtain ⟨l1, l2, hl⟩ := List.append_of_mem ha
  subst hl
  exact ⟨l1.flatMap g, l2.flatMap g, by simp [List.flatMap_append]⟩

theorem enableTrace_contains (a cmd f i : Nat) (hf : f < 8) (hi : i < 18) :
    ∃ u v, enableTrace a cmd = u ++ regWrite a cmd f i 0xFF ++ v := by
  obtain ⟨u1, v1, h1⟩ := flatMap_split
    (fun f => (List.range 18).flatMap (fun i => regWrite a cmd f i 0xFF)) (List.range 8) f
    (List.mem_range.mpr hf)
  obtain ⟨u2, v2, h2⟩ := flatMap_split (fun i => regWrite a cmd f i 0xFF) (List.range 18) i
    (List.mem_range.mpr hi)
  refine ⟨u1 ++ u2, v2 ++ v1, ?_⟩
  unfold enableTrace
  rw [h1]
  simp only [h2, List.append_assoc]

theorem enableLog_mem (f i : Nat) (hf : f < 8) (hi : i < 18) :
    (⟨some f, true, [i, 0xFF]⟩ : Access) ∈ enableLog := by
  unfold enableLog
  rw [List.mem_flatMap]
  exact ⟨f, List.mem_range.mpr hf, List.mem_map.mpr ⟨i, List.mem_range.mpr hi, rfl⟩⟩

/-- C17: after a successful `begin(addr)` the trace ends with the LED-enable
block followed only by the audio-sync write to the function-register bank; the
block holds, for every bank `f` in `0..7` and every offset `i` in
`0x00..0x11`, the register write of `0xFF` to `(f, i)` right after a select of
bank `f` (144 accesses in all); and on the device-memory model every
LED-control register `(f, i)` reads `0xFF` after `begin`, whatever the chip
held before. -/
theorem begin_enables_all_leds (st rx : List Call → Nat) (K : Regs) (h : Handle) (addr : Nat)
    (t : List Call) (c : Chip) (hack : st (t ++ probeCalls (addr % 256)) = 0)
    (hsep : K.separated) :
    (begin (recorder st rx) K h addr t).1 = true
      ∧ (∃ pre, (begin (recorder st rx) K h addr t).2.2
          = t ++ pre ++ enableTrace (addr % 256) (K.ISSI_COMMANDREGISTER % 256)
            ++ regWrite (addr % 256) (K.ISSI_COMMANDREGISTER % 256)
                (K.ISSI_BANK_FUNCTIONREG % 256) (K.ISSI_REG_AUDIOSYNC % 256) 0)
      ∧ (∀ f, f < 8 → K.ISSI_BANK_FUNCTIONREG % 256 ≠ f)
      ∧ (∀ f i, f < 8 → i ≤ 0x11 →
          ∃ u v, enableTrace (addr % 256) (K.ISSI_COMMANDREGISTER % 256)
            = u ++ regWrite (addr % 256) (K.ISSI_COMMANDREGISTER % 256) f i 0xFF ++ v)
      ∧ accessLog (K.ISSI_COMMANDREGISTER % 256)
          (enableTrace (addr % 256) (K.ISSI_COMMANDREGISTER % 256)) = enableLog
      ∧ enableLog.length = 144
      ∧ (∀ f i, f < 8 → i ≤ 0x11 → (⟨some f, true, [i, 0xFF]⟩ : Access) ∈ enableLog)
      ∧ (begin (chipWire (K.ISSI_COMMANDREGISTER % 256)) K h addr c).1 = true
      ∧ (∀ f i, f < 8 → i ≤ 0x11 →
          (readRegister8 (chipWire (K.ISSI_COMMANDREGISTER % 256)) K
            (begin (chipWire (K.ISSI_COMMANDREGISTER % 256)) K h addr c).2.1 f i
            (begin (chipWire (K.ISSI_COMMANDREGISTER % 256)) K h addr c).2.2).1 = 0xFF) := by
  have hc : 0xB3 < K.ISSI_COMMANDREGISTER % 256 := hsep.1
  have hfun : 8 ≤ K.ISSI_BANK_FUNCTIONREG % 256 := hsep.2.1
  refine ⟨by rw [begin_recorder_ack st rx K h addr t hack], ?_, fun f hf => by omega, ?_, ?_,
    rfl, ?_, by rw [begin_chip], ?_⟩
  · refine ⟨probeCalls (addr % 256) ++ [Call.endTransmission]
        ++ (regWrite (addr % 256) (K.ISSI_COMMANDREGISTER % 256) (K.ISSI_BANK_FUNCTIONREG % 256)
            (K.ISSI_REG_SHUTDOWN % 256) 0x00
          ++ [Call.delay 10]
          ++ regWrite (addr % 256) (K.ISSI_COMMANDREGISTER % 256) (K.ISSI_BANK_FUNCTIONREG % 256)
            (K.ISSI_REG_SHUTDOWN % 256) 0x01
          ++ regWrite (addr % 256) (K.ISSI_COMMANDREGISTER % 256) (K.ISSI_BANK_FUNCTIONREG % 256)
            (K.ISSI_REG_CONFIG % 256) (K.ISSI_REG_CONFIG_PICTUREMODE % 256)
          ++ regWrite (addr % 256) (K.ISSI_COMMANDREGISTER % 256) (K.ISSI_BANK_FUNCTIONREG % 256)
            (K.ISSI_REG_PICTUREFRAME % 256) 0
          ++ clearTrace (addr % 256) (K.ISSI_COMMANDREGISTER % 256) 0), ?_⟩
    rw [begin_recorder_ack st rx K h addr t hack]
    simp only [configTrace, List.append_assoc]
  · intro f i hf hi
    exact enableTrace_contains _ _ f i hf (by omega)
  · unfold accessLog
    rw [scan_enableTrace_log _ _ _ (by omega)]
    simp
  · intro f i hf hi
    exact enableLog_mem f i hf (by omega)
  · intro f i hf hi
    rw [readRegister8_chip_val K _ f i _ (by omega) (by omega) (by omega),
      begin_chip_enabled K h addr c f i hsep hf (by omega)]

theorem begin_enables_all_leds_witness :
    (fun _ : List Call => 0) ([] ++ probeCalls (0x74 % 256)) = 0 ∧ sampleRegs.separated
      ∧ (begin (chipWire (sampleRegs.ISSI_COMMANDREGISTER % 256)) sampleRegs (Handle.mk 0 5 0)
          0x74 dirtyChip).1 = true
      ∧ enableLog.length = 144 :=
  ⟨rfl, by decide,
    (begin_enables_all_leds (fun _ => 0) (fun _ => 0) sampleRegs (Handle.mk 0 5 0) 0x74 []
      dirtyChip rfl (by decide)).2.2.2.2.2.2.2.1,
    (begin_enables_all_leds (fun _ => 0) (fun _ => 0) sampleRegs (Handle.mk 0 5 0) 0x74 []
      dirtyChip rfl (by decide)).2.2.2.2.2.1⟩

/-! ## Wing layout: rotation 3 and the index range -/

theorem Wing.drawPixel_rejected {σ : Type} (W : TwoWire σ) (K : Regs) (h : Handle) (x y : Int)
    (color : Nat) (s : σ)
    (hrej : (Wing.rotate h.rotation x y).1 < 0 ∨ 16 ≤ (Wing.rotate h.rotation x y).1
      ∨ (Wing.rotate h.rotation x y).2 < 0 ∨ 7 ≤ (Wing.rotate h.rotation x y).2) :
    Wing.drawPixel W K h x y color s = (h, s) := by
  simp only [Wing.drawPixel, ge_iff_le, hrej, if_true]

theorem Wing.rotate_three (x y : Int) (hx1 : -32768 ≤ x) (hx2 : x ≤ 32767) :
    (Wing.rotate 3 x y).1 = y
      ∧ ((0 ≤ (Wing.rotate 3 x y).2 ∧ (Wing.rotate 3 x y).2 < 7) ↔ (2 ≤ x ∧ x ≤ 8))
      ∧ (2 ≤ x → x ≤ 8 → (Wing.rotate 3 x y).2 = 8 - x) := by
  simp only [Wing.rotate, wrap16]
  refine ⟨trivial, ?_, ?_⟩
  · omega
  · omega

theorem regWrite_ne_nil (a cmd b reg d : Nat) : regWrite a cmd b reg d ≠ [] := by
  simp [regWrite, bankSelect]

/-- C18: at rotation 3 the wing `drawPixel(x, y, c)` on int16 coordinates
issues a write if and only if `2 <= x <= 8` and `0 <= y <= 15`; the
post-rotation coordinate is then `(y, 8 - x)` and the write goes to the folded
index of that coordinate; every other coordinate, in particular the logical
columns `x = 0` and `x = 1`, is dropped without a transport call. -/
theorem wing_rotation_three {σ : Type} (W : TwoWire σ) (st rx : List Call → Nat) (K : Regs)
    (h : Handle) (x y : Int) (color : Nat) (s : σ) (t : List Call) (hr : h.rotation = 3)
    (hc : color < 65536) (hx1 : -32768 ≤ x) (hx2 : x ≤ 32767) (hy1 : -32768 ≤ y)
    (hy2 : y ≤ 32767) :
    ((2 ≤ x ∧ x ≤ 8 ∧ 0 ≤ y ∧ y ≤ 15) →
        Wing.rotate h.rotation x y = (y, 8 - x)
          ∧ Wing.drawPixel W K h x y color s
            = setLEDPWM W K h (wingIndex y (8 - x)).toNat (min color 255) h._frame s
          ∧ Wing.drawPixel (recorder st rx) K h x y color t
            = (h, t ++ regWrite h._i2caddr (K.ISSI_COMMANDREGISTER % 256) (h._frame % 256)
                (0x24 + (wingIndex y (8 - x)).toNat) (min color 255)))
      ∧ (¬ (2 ≤ x ∧ x ≤ 8 ∧ 0 ≤ y ∧ y ≤ 15) →
        Wing.drawPixel W K h x y color s = (h, s)
          ∧ Wing.drawPixel (recorder st rx) K h x y color t = (h, t))
      ∧ ((Wing.drawPixel (recorder st rx) K h x y color t).2 ≠ t
          ↔ (2 ≤ x ∧ x ≤ 8 ∧ 0 ≤ y ∧ y ≤ 15))
      ∧ ((x = 0 ∨ x = 1) → Wing.drawPixel W K h x y color s = (h, s)) := by
  obtain ⟨r1, r2, r3⟩ := Wing.rotate_three x y hx1 hx2
  have hacc : (2 ≤ x ∧ x ≤ 8 ∧ 0 ≤ y ∧ y ≤ 15) →
      Wing.rotate h.rotation x y = (y, 8 - x)
        ∧ (∀ {τ : Type} (V : TwoWire τ) (z : τ), Wing.drawPixel V K h x y color z
          = setLEDPWM V K h (wingIndex y (8 - x)).toNat (min color 255) h._frame z)
        ∧ Wing.drawPixel (recorder st rx) K h x y color t
          = (h, t ++ regWrite h._i2caddr (K.ISSI_COMMANDREGISTER % 256) (h._frame % 256)
              (0x24 + (wingIndex y (8 - x)).toNat) (min color 255)) := by
    intro hin
    have hrot : Wing.rotate h.rotation x y = (y, 8 - x) := by
      rw [hr]
      exact Prod.ext r1 (r3 hin.1 hin.2.1)
    have hgen : ∀ {τ : Type} (V : TwoWire τ) (z : τ), Wing.drawPixel V K h x y color z
        = setLEDPWM V K h (wingIndex y (8 - x)).toNat (min color 255) h._frame z := by
      intro τ V z
      have := Wing.drawPixel_accepted V K h x y color z hc (by rw [hrot]; omega)
        (by rw [hrot]; simp only; omega) (by rw [hrot]; simp only; omega)
        (by rw [hrot]; simp only; omega)
      rw [this, hrot]
    refine ⟨hrot, hgen, ?_⟩
    have hlt : (wingIndex y (8 - x)).toNat < 144 := by
      unfold wingIndex
      split_ifs <;> omega
    rw [hgen, setLEDPWM_lt _ _ _ _ _ _ _ hlt, writeRegister8_recorder]
    have m1 : (0x24 + (wingIndex y (8 - x)).toNat) % 256 = 0x24 + (wingIndex y (8 - x)).toNat :=
      Nat.mod_eq_of_lt (by omega)
    have m2 : min color 255 % 256 = min color 255 := Nat.mod_eq_of_lt (by omega)
    rw [m1, m2]
  have hrej : ¬ (2 ≤ x ∧ x ≤ 8 ∧ 0 ≤ y ∧ y ≤ 15) →
      ∀ {τ : Type} (V : TwoWire τ) (z : τ), Wing.drawPixel V K h x y color z = (h, z) := by
    intro hn τ V z
    apply Wing.drawPixel_rejected
    rw [hr, r1]
    by_cases hx : 2 ≤ x ∧ x ≤ 8
    · have : y < 0 ∨ 16 ≤ y := by omega
      omega
    · have h2 : ¬ (0 ≤ (Wing.rotate 3 x y).2 ∧ (Wing.rotate 3 x y).2 < 7) :=
        fun hk => hx (r2.mp hk)
      omega
  refine ⟨fun hin => ⟨(hacc hin).1, (hacc hin).2.1 W s, (hacc hin).2.2⟩,
    fun hn => ⟨hrej hn W s, hrej hn _ t⟩, ?_, ?_⟩
  · constructor
    · intro hne
      by_contra hn
      exact hne (by rw [hrej hn _ t])
    · intro hin
      rw [(hacc hin).2.2]
      simp only [ne_eq, List.append_right_eq_self]
      exact regWrite_ne_nil _ _ _ _ _
  · intro h01
    exact hrej (by omega) W s

theorem wing_rotation_three_witness :
    (Handle.mk 0x74 0 3).rotation = 3 ∧ (9 : Nat) < 65536
      ∧ Wing.drawPixel ackWire sampleRegs (Handle.mk 0x74 0 3) 1 5 9 []
        = (Handle.mk 0x74 0 3, [])
      ∧ Wing.drawPixel ackWire sampleRegs (Handle.mk 0x74 0 3) 2 5 9 []
        = (Handle.mk 0x74 0 3, [] ++ regWrite 0x74 0xFD (0 % 256) (0x24 + 81) 9) :=
  ⟨rfl, by decide,
    (wing_rotation_three ackWire (fun _ => 0) (fun _ => 0) sampleRegs (Handle.mk 0x74 0 3) 1 5 9
      [] [] rfl (by decide) (by decide) (by decide) (by decide) (by decide)).2.2.2 (by decide),
    ((wing_rotation_three ackWire (fun _ => 0) (fun _ => 0) sampleRegs (Handle.mk 0x74 0 3) 2 5 9
      [] [] rfl (by decide) (by decide) (by decide) (by decide) (by decide)).1
      (by decide)).2.2⟩

theorem Wing.fold_index (x y : Int) (hx0 : 0 ≤ x) (hx1 : x < 16) (hy0 : 0 ≤ y) (hy1 : y < 7) :
    (Wing.fold x y).1 + (Wing.fold x y).2 * 16 = wingIndex x y := by
  unfold Wing.fold wingIndex wrap16
  by_cases h7 : x > 7
  · have h8 : ¬ x ≤ 7 := by omega
    simp only [h7, h8, if_true, if_false]
    omega
  · have h8 : x ≤ 7 := by omega
    simp only [h7, h8, if_true, if_false]
    omega

/-- C20: for every post-rotation coordinate `(x, y)` in `[0,16) x [0,7)`
accepted by the wing bounds check, the linear index `x + y*16` computed after
the fold lies in `0..126`, so it passes to `setLEDPWM` without 8-bit
truncation and is not rejected there (the call is one register write at
`0x24 + index`); and two accepted coordinates with the same index are equal. -/
theorem wing_index_injective {σ : Type} (W : TwoWire σ) (K : Regs) (h : Handle)
    (x y x2 y2 : Int) (pwm bank : Nat) (s : σ)
    (hx0 : 0 ≤ x) (hx1 : x < 16) (hy0 : 0 ≤ y) (hy1 : y < 7)
    (hu0 : 0 ≤ x2) (hu1 : x2 < 16) (hv0 : 0 ≤ y2) (hv1 : y2 < 7) :
    0 ≤ (Wing.fold x y).1 + (Wing.fold x y).2 * 16
      ∧ (Wing.fold x y).1 + (Wing.fold x y).2 * 16 ≤ 126
      ∧ toU8 ((Wing.fold x y).1 + (Wing.fold x y).2 * 16)
        = ((Wing.fold x y).1 + (Wing.fold x y).2 * 16).toNat
      ∧ toU8 ((Wing.fold x y).1 + (Wing.fold x y).2 * 16) < 144
      ∧ setLEDPWM W K h (toU8 ((Wing.fold x y).1 + (Wing.fold x y).2 * 16)) pwm bank s
        = writeRegister8 W K h bank
            (0x24 + toU8 ((Wing.fold x y).1 + (Wing.fold x y).2 * 16)) pwm s
      ∧ ((Wing.fold x y).1 + (Wing.fold x y).2 * 16
            = (Wing.fold x2 y2).1 + (Wing.fold x2 y2).2 * 16 → x = x2 ∧ y = y2) := by
  have e1 := Wing.fold_index x y hx0 hx1 hy0 hy1
  have e2 := Wing.fold_index x2 y2 hu0 hu1 hv0 hv1
  have b1 : 0 ≤ wingIndex x y ∧ wingIndex x y ≤ 126 := by
    unfold wingIndex
    split_ifs <;> omega
  have hu : toU8 (wingIndex x y) = (wingIndex x y).toNat := by
    unfold toU8
    congr 1
    omega
  have hlt : toU8 (wingIndex x y) < 144 := by
    rw [hu]
    omega
  rw [e1, e2]
  refine ⟨b1.1, b1.2, hu, hlt, setLEDPWM_lt W K h _ pwm bank s hlt, ?_⟩
  unfold wingIndex
  split_ifs <;> intro he <;> omega

theorem wing_index_injective_witness :
    (0 : Int) ≤ 8 ∧ (8 : Int) < 16 ∧ (0 : Int) ≤ 6 ∧ (6 : Int) < 7
      ∧ (Wing.fold 8 6).1 + (Wing.fold 8 6).2 * 16 ≤ 126
      ∧ toU8 ((Wing.fold 8 6).1 + (Wing.fold 8 6).2 * 16) = 126 :=
  ⟨by decide, by decide, by decide, by decide,
    (wing_index_injective ackWire sampleRegs (Handle.mk 0x74 0 0) 8 6 0 0 0 0 []
      (by decide) (by decide) (by decide) (by decide) (by decide) (by decide) (by decide)
      (by decide)).2.1,
    by decide⟩

/-! ## The batched clear against the per-register clear -/

theorem naiveClear_chip_mem (K : Regs) (h : Handle) (c : Chip) (b r : Nat)
    (hcmd : K.ISSI_COMMANDREGISTER % 256 < 0x24 ∨ 0xB3 < K.ISSI_COMMANDREGISTER % 256) :
    (naiveClear (chipWire (K.ISSI_COMMANDREGISTER % 256)) K h c).2.mem b r
      = if b = h._frame % 256 ∧ 0x24 ≤ r ∧ r ≤ 0xB3 then 0 else c.mem b r := by
  have hfold : naiveClear (chipWire (K.ISSI_COMMANDREGISTER % 256)) K h c
      = ((List.range 144).map (fun k => 0x24 + k)).foldl
          (fun hs i => writeRegister8 (chipWire (K.ISSI_COMMANDREGISTER % 256)) K hs.1 h._frame i 0
            hs.2) (h, c) := by
    unfold naiveClear
    rw [List.foldl_map]
    apply List.foldl_ext
    intro hs k hk
    exact setLEDPWM_lt _ K hs.1 k 0 h._frame hs.2 (List.mem_range.mp hk)
  have hregs : ∀ i ∈ (List.range 144).map (fun k => 0x24 + k),
      i < 256 ∧ i ≠ K.ISSI_COMMANDREGISTER % 256 ∧ 0x24 ≤ i ∧ i ≤ 0xB3 := by
    intro i hi
    obtain ⟨k, hk, rfl⟩ := List.mem_map.mp hi
    have := List.mem_range.mp hk
    omega
  rw [hfold]
  by_cases hin : b = h._frame % 256 ∧ 0x24 ≤ r ∧ r ≤ 0xB3
  · rw [if_pos hin]
    obtain ⟨hb, h1, h2⟩ := hin
    subst hb
    have hmem : r ∈ (List.range 144).map (fun k => 0x24 + k) :=
      List.mem_map.mpr ⟨r - 0x24, List.mem_range.mpr (by omega), by omega⟩
    exact foldl_writeRegister8_chip_at K h._frame 0 _
      (fun i hi => ⟨(hregs i hi).1, (hregs i hi).2.1⟩) (h, c) r hmem
  · rw [if_neg hin, foldl_mem_preserved]
    intro hs i hi
    have hi1 := hregs i hi
    have ei : i % 256 = i := Nat.mod_eq_of_lt hi1.1
    apply writeRegister8_chip_other
    rw [ei]
    intro hk
    exact hin ⟨hk.1, by omega, by omega⟩

/-- C19: `clear()` emits one bank select of the active frame followed by
exactly the six transactions of `clearTrace` (start offset `0x24 + 24*i`, then
24 zero bytes); the six offset ranges are pairwise disjoint and cover exactly
`0x24..0xB3`; on the device-memory model the memory after `clear()` equals the
memory after `setLEDPWM(k, 0, _frame)` for `k = 0..143`, and no register
outside the PWM range of the active frame is modified. -/
theorem clear_refines_naive (st rx : List Call → Nat) (K : Regs) (h : Handle) (t : List Call)
    (c : Chip)
    (hcmd : K.ISSI_COMMANDREGISTER % 256 < 0x24 ∨ 0xB3 < K.ISSI_COMMANDREGISTER % 256) :
    clear (recorder st rx) K h t
        = (h, t ++ clearTrace h._i2caddr (K.ISSI_COMMANDREGISTER % 256) (h._frame % 256))
      ∧ accessLog (K.ISSI_COMMANDREGISTER % 256)
          (clearTrace h._i2caddr (K.ISSI_COMMANDREGISTER % 256) (h._frame % 256))
        = clearLog (h._frame % 256)
      ∧ (clearLog (h._frame % 256)).length = 6
      ∧ (∀ r : Nat, (0x24 ≤ r ∧ r ≤ 0xB3)
          ↔ ∃ i, i < 6 ∧ 0x24 + 24 * i ≤ r ∧ r < 0x24 + 24 * i + 24)
      ∧ (∀ i j r : Nat, i < 6 → j < 6 → 0x24 + 24 * i ≤ r → r < 0x24 + 24 * i + 24 →
          0x24 + 24 * j ≤ r → r < 0x24 + 24 * j + 24 → i = j)
      ∧ (clear (chipWire (K.ISSI_COMMANDREGISTER % 256)) K h c).2.mem
        = (naiveClear (chipWire (K.ISSI_COMMANDREGISTER % 256)) K h c).2.mem
      ∧ (∀ b r, ¬ (b = h._frame % 256 ∧ 0x24 ≤ r ∧ r ≤ 0xB3) →
          (clear (chipWire (K.ISSI_COMMANDREGISTER % 256)) K h c).2.mem b r = c.mem b r) := by
  refine ⟨clear_recorder st rx K h t, ?_, rfl, ?_, ?_, ?_, ?_⟩
  · unfold accessLog
    rw [scan_clearTrace _ _ _ _ hcmd]
    simp
  · intro r
    constructor
    · intro hr
      exact ⟨(r - 0x24) / 24, by omega, by omega, by omega⟩
    · rintro ⟨i, hi, h1, h2⟩
      omega
  · intro i j r hi hj h1 h2 h3 h4
    omega
  · funext b r
    rw [clear_chip_mem K h c b r hcmd, naiveClear_chip_mem K h c b r hcmd]
  · intro b r hn
    rw [clear_chip_mem K h c b r hcmd, if_neg hn]

theorem clear_refines_naive_witness :
    (sampleRegs.ISSI_COMMANDREGISTER % 256 < 0x24 ∨ 0xB3 < sampleRegs.ISSI_COMMANDREGISTER % 256)
      ∧ (clear (chipWire (sampleRegs.ISSI_COMMANDREGISTER % 256)) sampleRegs
          (Handle.mk 0x74 2 0) dirtyChip).2.mem
        = (naiveClear (chipWire (sampleRegs.ISSI_COMMANDREGISTER % 256)) sampleRegs
          (Handle.mk 0x74 2 0) dirtyChip).2.mem :=
  ⟨by decide,
    (clear_refines_naive (fun _ => 0) (fun _ => 0) sampleRegs (Handle.mk 0x74 2 0) []
      dirtyChip (by decide)).2.2.2.2.2.1⟩

/-! ## Evaluation of the device-memory model -/

theorem dirtyChip_read :
    (readRegister8 (chipWire 0xFD) sampleRegs (Handle.mk 0x74 5 0) 5 0x30 dirtyChip).1
      = 0xAA := by
  decide

theorem clear_sample_inside :
    (readRegister8 (chipWire 0xFD) sampleRegs (Handle.mk 0x74 5 0) 5 0x30
      (clear (chipWire 0xFD) sampleRegs (Handle.mk 0x74 5 0) dirtyChip).2).1 = 0 := by
  decide

theorem clear_sample_above :
    (readRegister8 (chipWire 0xFD) sampleRegs (Handle.mk 0x74 5 0) 5 0xB4
      (clear (chipWire 0xFD) sampleRegs (Handle.mk 0x74 5 0) dirtyChip).2).1 = 0xAA := by
  decide

theorem clear_sample_other_bank :
    (readRegister8 (chipWire 0xFD) sampleRegs (Handle.mk 0x74 5 0) 4 0x30
      (clear (chipWire 0xFD) sampleRegs (Handle.mk 0x74 5 0) dirtyChip).2).1 = 0xAA := by
  decide

end IS31FL3731
